import Mathlib

/-!
Verification development for the activity classification and reconciliation
engine of the bipartite workflow CLI.

The Python sources are shallowly embedded: dictionaries become structures
whose fields are the keys the code actually reads (`.get` accesses become
`Option` fields), Python strings become `String` compared code-point-wise,
`int` values become `Int`, functions that can raise become `Except String`
valued, and external collaborators (GitHub fetches, board mutations) become
function parameters.  Python's stable `list.sort(key=...)` is modelled by a
structurally recursive stable insertion sort: a stable sort's output on a
total preorder is unique, so any stable implementation is extensionally the
sort the CPython runtime performs.
-/

namespace Bipartite

/-- Decidable equality for `Except`, needed to evaluate embedded fallible
computations on concrete inputs. -/
instance instDecEqExcept {ε α : Type} [DecidableEq ε] [DecidableEq α] :
    DecidableEq (Except ε α) := fun a b =>
  match a, b with
  | .ok x, .ok y =>
    if h : x = y then .isTrue (by rw [h]) else .isFalse (by intro hc; cases hc; exact h rfl)
  | .error x, .error y =>
    if h : x = y then .isTrue (by rw [h]) else .isFalse (by intro hc; cases hc; exact h rfl)
  | .ok _, .error _ => .isFalse (by intro hc; cases hc)
  | .error _, .ok _ => .isFalse (by intro hc; cases hc)

/-- Lexicographic comparison of character lists by code point: the ordering
Python uses to compare `str` values (`s1 <= s2`). -/
def lexLe : List Char → List Char → Bool
  | [], _ => true
  | _ :: _, [] => false
  | a :: as, b :: bs => if a = b then lexLe as bs else decide (a.toNat < b.toNat)

theorem lexLe_refl (l : List Char) : lexLe l l = true := by
  induction l with
  | nil => rfl
  | cons a as ih => simp [lexLe, ih]

theorem char_toNat_inj {a b : Char} (h : a.toNat = b.toNat) : a = b := by
  apply Char.ext
  exact UInt32.toNat.inj h

theorem lexLe_total (l₁ l₂ : List Char) : lexLe l₁ l₂ = true ∨ lexLe l₂ l₁ = true := by
  induction l₁ generalizing l₂ with
  | nil => left; rfl
  | cons a as ih =>
    cases l₂ with
    | nil => right; rfl
    | cons b bs =>
      by_cases hab : a = b
      · subst hab
        rcases ih bs with h | h
        · left; simp [lexLe, h]
        · right; simp [lexLe, h]
      · have hn : a.toNat ≠ b.toNat := fun hc => hab (char_toNat_inj hc)
        rcases Nat.lt_or_ge a.toNat b.toNat with h | h
        · left; simp [lexLe, hab, h]
        · right
          have hba : b ≠ a := fun hc => hab hc.symm
          have : b.toNat < a.toNat := lt_of_le_of_ne h (fun hc => hn hc.symm)
          simp [lexLe, hba, this]

theorem lexLe_trans {l₁ l₂ l₃ : List Char} (h₁ : lexLe l₁ l₂ = true)
    (h₂ : lexLe l₂ l₃ = true) : lexLe l₁ l₃ = true := by
  induction l₁ generalizing l₂ l₃ with
  | nil => rfl
  | cons a as ih =>
    cases l₂ with
    | nil => simp [lexLe] at h₁
    | cons b bs =>
      cases l₃ with
      | nil => simp [lexLe] at h₂
      | cons c cs =>
        by_cases hab : a = b
        · subst hab
          by_cases hbc : a = c
          · subst hbc
            simp only [lexLe, if_pos rfl] at h₁ h₂ ⊢
            exact ih h₁ h₂
          · simp only [lexLe, if_pos rfl] at h₁
            simp only [lexLe, if_neg hbc] at h₂ ⊢
            exact h₂
        · by_cases hbc : b = c
          · subst hbc
            simp only [lexLe, if_neg hab] at h₁ ⊢
            exact h₁
          · simp only [lexLe, if_neg hab] at h₁
            simp only [lexLe, if_neg hbc] at h₂
            have hac : a.toNat < c.toNat :=
              Nat.lt_trans (of_decide_eq_true h₁) (of_decide_eq_true h₂)
            have hne : a ≠ c := by
              intro hc; subst hc; exact Nat.lt_irrefl _ hac
            simp [lexLe, hne, hac]

theorem lexLe_antisymm {l₁ l₂ : List Char} (h₁ : lexLe l₁ l₂ = true)
    (h₂ : lexLe l₂ l₁ = true) : l₁ = l₂ := by
  induction l₁ generalizing l₂ with
  | nil =>
    cases l₂ with
    | nil => rfl
    | cons b bs => simp [lexLe] at h₂
  | cons a as ih =>
    cases l₂ with
    | nil => simp [lexLe] at h₁
    | cons b bs =>
      by_cases hab : a = b
      · subst hab
        simp only [lexLe, if_pos rfl] at h₁ h₂
        rw [ih h₁ h₂]
      · have hba : b ≠ a := fun hc => hab hc.symm
        simp only [lexLe, if_neg hab] at h₁
        simp only [lexLe, if_neg hba] at h₂
        exact absurd (Nat.lt_trans (of_decide_eq_true h₁) (of_decide_eq_true h₂))
          (Nat.lt_irrefl _)

/-- Comparison of two values through a `String` key, by code points: the
comparison performed by Python's `sorted(..., key=...)` / `list.sort(key=...)`
when the key is a string. -/
def keyLe {α : Type} (key : α → String) (a b : α) : Bool :=
  lexLe (key a).data (key b).data

theorem keyLe_total {α : Type} (key : α → String) (a b : α) :
    keyLe key a b = true ∨ keyLe key b a = true := lexLe_total _ _

theorem keyLe_trans {α : Type} (key : α → String) {a b c : α}
    (h₁ : keyLe key a b = true) (h₂ : keyLe key b c = true) :
    keyLe key a c = true := lexLe_trans h₁ h₂

theorem keyLe_antisymm_key {α : Type} (key : α → String) {a b : α}
    (h₁ : keyLe key a b = true) (h₂ : keyLe key b a = true) :
    key a = key b := String.ext (lexLe_antisymm h₁ h₂)

/-- Insert `a` after every already-placed element whose key is less than or
equal to `a`'s key.  Because elements are inserted in original order, an
element arriving later is placed after earlier elements with equal keys:
exactly the stability guarantee of Python's sort. -/
def insertStable {α : Type} (le : α → α → Bool) (a : α) : List α → List α
  | [] => [a]
  | b :: l => if le b a then b :: insertStable le a l else a :: b :: l

/-- Stable sort (ascending by `le`), processing elements in original order. -/
def sortStable {α : Type} (le : α → α → Bool) (l : List α) : List α :=
  l.foldl (fun acc x => insertStable le x acc) []

theorem insertStable_perm {α : Type} (le : α → α → Bool) (a : α) (l : List α) :
    (insertStable le a l).Perm (a :: l) := by
  induction l with
  | nil => exact List.Perm.refl _
  | cons b t ih =>
    by_cases h : le b a = true
    · simp only [insertStable, if_pos h]
      exact (ih.cons b).trans (List.Perm.swap a b t)
    · simp only [insertStable, if_neg h]
      exact List.Perm.refl _

theorem sortStable_foldl_perm {α : Type} (le : α → α → Bool) (l acc : List α) :
    (l.foldl (fun acc x => insertStable le x acc) acc).Perm (l ++ acc) := by
  induction l generalizing acc with
  | nil => simp
  | cons x xs ih =>
    simp only [List.foldl_cons]
    refine (ih (insertStable le x acc)).trans ?_
    have h1 : (xs ++ insertStable le x acc).Perm (xs ++ x :: acc) :=
      List.Perm.append_left xs (insertStable_perm le x acc)
    refine h1.trans ?_
    exact @List.perm_middle _ x xs acc

theorem sortStable_perm {α : Type} (le : α → α → Bool) (l : List α) :
    (sortStable le l).Perm l := by
  simpa using sortStable_foldl_perm le l []

theorem mem_insertStable {α : Type} (le : α → α → Bool) (a x : α) (l : List α) :
    x ∈ insertStable le a l ↔ x = a ∨ x ∈ l :=
  ((insertStable_perm le a l).mem_iff).trans (by simp)

theorem insertStable_pairwise {α : Type} (le : α → α → Bool)
    (htotal : ∀ a b, le a b = true ∨ le b a = true)
    (htrans : ∀ {a b c}, le a b = true → le b c = true → le a c = true)
    (a : α) (l : List α)
    (hl : l.Pairwise (fun x y => le x y = true)) :
    (insertStable le a l).Pairwise (fun x y => le x y = true) := by
  induction l with
  | nil => simp [insertStable]
  | cons b t ih =>
    rcases List.pairwise_cons.mp hl with ⟨hb, ht⟩
    by_cases h : le b a = true
    · simp only [insertStable, if_pos h]
      refine List.pairwise_cons.mpr ⟨?_, ih ht⟩
      intro y hy
      rcases (mem_insertStable le a y t).mp hy with rfl | hy'
      · exact h
      · exact hb y hy'
    · simp only [insertStable, if_neg h]
      have hab : le a b = true := by
        rcases htotal a b with h' | h'
        · exact h'
        · exact absurd h' h
      refine List.pairwise_cons.mpr ⟨?_, hl⟩
      intro y hy
      rcases List.mem_cons.mp hy with rfl | hy'
      · exact hab
      · exact htrans hab (hb y hy')

theorem sortStable_sorted {α : Type} (le : α → α → Bool)
    (htotal : ∀ a b, le a b = true ∨ le b a = true)
    (htrans : ∀ {a b c}, le a b = true → le b c = true → le a c = true)
    (l : List α) :
    (sortStable le l).Pairwise (fun x y => le x y = true) := by
  have main : ∀ (l acc : List α), acc.Pairwise (fun x y => le x y = true) →
      (l.foldl (fun acc x => insertStable le x acc) acc).Pairwise
        (fun x y => le x y = true) := by
    intro l
    induction l with
    | nil => intro acc h; simpa using h
    | cons x xs ih =>
      intro acc h
      exact ih _ (insertStable_pairwise le htotal htrans x acc h)
  exact main l [] (by simp)

/-- Two sorted lists that are permutations of each other and whose keys are
pairwise distinct are equal: a stable sort's output is determined by the
multiset of its input when no two elements share a key. -/
theorem sorted_perm_eq_of_distinct_keys {α : Type} (key : α → String) :
    ∀ {l₁ l₂ : List α}, l₁.Perm l₂ →
      l₁.Pairwise (fun a b => key a ≠ key b) →
      l₁.Pairwise (fun a b => keyLe key a b = true) →
      l₂.Pairwise (fun a b => keyLe key a b = true) →
      l₁ = l₂ := by
  intro l₁
  induction l₁ with
  | nil =>
    intro l₂ hp _ _ _
    exact (hp.nil_eq).symm ▸ rfl
  | cons a t₁ ih =>
    intro l₂ hp hdist hs₁ hs₂
    cases l₂ with
    | nil => exact absurd hp.symm.nil_eq (by simp)
    | cons b t₂ =>
      rcases List.pairwise_cons.mp hdist with ⟨hda, hdt⟩
      rcases List.pairwise_cons.mp hs₁ with ⟨ha, hst₁⟩
      rcases List.pairwise_cons.mp hs₂ with ⟨hbmin, hst₂⟩
      have hab : a = b := by
        by_contra hne
        have hmem_a : a ∈ b :: t₂ := hp.mem_iff.mp (by simp)
        have hmem_b : b ∈ a :: t₁ := hp.mem_iff.mpr (by simp)
        rcases List.mem_cons.mp hmem_a with h | ha2
        · exact hne h
        rcases List.mem_cons.mp hmem_b with h | hb1
        · exact hne h.symm
        have h1 : keyLe key a b = true := ha b hb1
        have h2 : keyLe key b a = true := hbmin a ha2
        exact hda b hb1 (keyLe_antisymm_key key h1 h2)
      subst hab
      have ht : t₁.Perm t₂ := hp.cons_inv
      rw [ih ht hdt hst₁ hst₂]

/-! ## Embedding of src/fc_cli/checkin/activity.py

Records carry exactly the dictionary keys the module reads.  A key accessed
with `dict.get` becomes an `Option` field; a key accessed with `dict[...]`
(which the GitHub collaborator always provides) becomes a plain field. -/

/-- The `user` sub-dictionary of a comment record; `login` is read with
`.get("login", "")`, so it may be absent. -/
structure CommentUser where
  login : Option String
deriving DecidableEq, Repr

/-- A raw GitHub comment record, with the keys `activity.py` reads:
`issue_url` / `pull_request_url` (presence-tested), `user` (via `.get`),
`created_at` and `updated_at` (via `.get`). -/
structure Comment where
  issue_url : Option String
  pull_request_url : Option String
  user : Option CommentUser
  created_at : Option String
  updated_at : Option String
deriving DecidableEq, Repr

/-- The `user` sub-dictionary of an issue/PR record; `ball_in_my_court`
reads `item["user"]["login"]` directly, so `login` is required. -/
structure ItemUser where
  login : String
deriving DecidableEq, Repr

/-- A raw GitHub issue/PR record, with the keys `activity.py` reads:
`number`, `user.login`, and the truthiness of `.get("pull_request")`
(modelled by the Boolean `pull_request`). -/
structure Item where
  number : Int
  user : ItemUser
  pull_request : Bool
deriving DecidableEq, Repr

/-- Characters after the last `/`: Python's `s.split("/")[-1]`. -/
def lastUrlSegment (l : List Char) : List Char :=
  l.foldl (fun acc c => if c = '/' then [] else acc ++ [c]) []

/-- ASCII digit test, as matched by the digit runs `int()` accepts in the
(ASCII) GitHub URLs this code parses. -/
def isAsciiDigit (c : Char) : Bool :=
  decide (48 ≤ c.toNat) && decide (c.toNat ≤ 57)

/-- Python's `int(s)` on a URL tail segment: a non-empty run of digits with
an optional sign, otherwise a `ValueError`.  (Python also strips whitespace
and accepts non-ASCII digits; URL segments contain neither, and the embedding
keeps the exact behaviour on the inputs the code can see: digits parse, and
anything else raises.) -/
def pyInt (l : List Char) : Except String Int :=
  match l with
  | '-' :: rest =>
    if rest ≠ [] ∧ rest.all isAsciiDigit then
      .ok (-(Int.ofNat (rest.foldl (fun a c => a * 10 + (c.toNat - 48)) 0)))
    else .error "ValueError: invalid literal for int()"
  | '+' :: rest =>
    if rest ≠ [] ∧ rest.all isAsciiDigit then
      .ok (Int.ofNat (rest.foldl (fun a c => a * 10 + (c.toNat - 48)) 0))
    else .error "ValueError: invalid literal for int()"
  | _ =>
    if l ≠ [] ∧ l.all isAsciiDigit then
      .ok (Int.ofNat (l.foldl (fun a c => a * 10 + (c.toNat - 48)) 0))
    else .error "ValueError: invalid literal for int()"

/-- `get_comment_item_number` (activity.py lines 87-96): the issue/PR number
a comment belongs to, from `issue_url` or `pull_request_url`; `None` when
neither key is present.  `.ok none` is Python's `return None`; `.error` is a
raised `ValueError` from `int()`. -/
def get_comment_item_number (c : Comment) : Except String (Option Int) :=
  match c.issue_url with
  | some url => (pyInt (lastUrlSegment url.data)).map some
  | none =>
    match c.pull_request_url with
    | some url => (pyInt (lastUrlSegment url.data)).map some
    | none => .ok none

/-- The sort key of activity.py line 142:
`c.get("updated_at", c.get("created_at", ""))`. -/
def commentSortKey (c : Comment) : String :=
  c.updated_at.getD (c.created_at.getD "")

/-- Comment ordering used by `item_comments.sort(key=...)`. -/
def commentLe (a b : Comment) : Bool :=
  keyLe commentSortKey a b

/-- `item_comments[-1].get("user", {}).get("login", "")` (line 143). -/
def lastCommenterLogin (c : Comment) : String :=
  match c.user with
  | none => ""
  | some u => u.login.getD ""

/-- The list comprehension of activity.py line 135:
`[c for c in comments if get_comment_item_number(c) == item_number]`,
evaluated left to right, propagating the first raised error. -/
def selectItemComments (item_number : Int) : List Comment → Except String (List Comment)
  | [] => .ok []
  | c :: rest => do
    let n ← get_comment_item_number c
    let others ← selectItemComments item_number rest
    pure (if n = some item_number then c :: others else others)

/-- `ball_in_my_court` (activity.py lines 99-145).  The Python function
returns `last_commenter and last_commenter != github_user`, whose truthiness
is `last_commenter != "" and last_commenter != github_user`; the final
in-place `item_comments.sort(key=...)` is the stable ascending sort
`sortStable commentLe`. -/
def ball_in_my_court (item : Item) (comments : List Comment) (github_user : String) :
    Except String Bool := do
  let author := item.user.login
  let is_my_item := author = github_user
  let item_number := item.number
  let item_comments ← selectItemComments item_number comments
  if item_comments.isEmpty then
    pure (!is_my_item)
  else
    match (sortStable commentLe item_comments).getLast? with
    | none => pure false   -- unreachable: item_comments is non-empty
    | some last =>
      let last_commenter := lastCommenterLogin last
      pure (last_commenter != "" && last_commenter != github_user)

/-- The list comprehension of `filter_by_ball_in_court` (lines 148-161),
evaluated left to right, propagating the first raised error. -/
def filter_by_ball_in_court (items : List Item) (comments : List Comment)
    (github_user : String) : Except String (List Item) :=
  match items with
  | [] => .ok []
  | item :: rest => do
    let b ← ball_in_my_court item comments github_user
    let others ← filter_by_ball_in_court rest comments github_user
    pure (if b then item :: others else others)

/-- The comprehension of `filter_comments_by_items` (lines 164-175), with
`item_numbers` the set of numbers of `items`; `None in item_numbers` is
`False`. -/
def selectCommentsByNumbers (item_numbers : List Int) :
    List Comment → Except String (List Comment)
  | [] => .ok []
  | c :: rest => do
    let n ← get_comment_item_number c
    let others ← selectCommentsByNumbers item_numbers rest
    pure (if (match n with | some k => item_numbers.contains k | none => false) then
            c :: others
          else others)

/-- `filter_comments_by_items` (activity.py lines 164-175). -/
def filter_comments_by_items (comments : List Comment) (items : List Item) :
    Except String (List Comment) :=
  selectCommentsByNumbers (items.map Item.number) comments

/-! ## Embedding of `fetch_all_activity` (activity.py lines 178-240)

The three external fetches (`fetch_issues`, `fetch_comments`,
`fetch_pr_comments`) are out-of-scope collaborators; their per-repository
results are bundled into `RepoData` and supplied as a function parameter. -/

/-- The raw data the three collaborator fetches return for one repository. -/
structure RepoData where
  items : List Item
  issue_comments : List Comment
  pr_comments : List Comment

/-- One repository's entry in the returned activity mapping:
`{"issues": ..., "prs": ..., "comments": ...}`. -/
structure Snapshot where
  issues : List Item
  prs : List Item
  comments : List Comment
deriving DecidableEq, Repr

/-- The rollup totals `{"issues": N, "prs": M, "comments": K}`. -/
structure Counts where
  issues : Nat
  prs : Nat
  comments : Nat
deriving DecidableEq, Repr

/-- The per-repository body of the `fetch_all_activity` loop (lines 200-214):
partition items into issues and PRs, concatenate the two comment feeds, and
apply ball-in-my-court filtering when `github_user` is truthy (Python's
`if github_user:` is false for both `None` and `""`).  Returns the
post-filtering `(new_issues, new_prs, all_comments)`. -/
def processRepo (data : RepoData) (github_user : Option String) :
    Except String (List Item × List Item × List Comment) :=
  let new_issues := data.items.filter (fun i => !i.pull_request)
  let new_prs := data.items.filter (fun i => i.pull_request)
  let all_comments := data.issue_comments ++ data.pr_comments
  match github_user with
  | some user =>
    if user = "" then .ok (new_issues, new_prs, all_comments)
    else do
      let ni ← filter_by_ball_in_court new_issues all_comments user
      let np ← filter_by_ball_in_court new_prs all_comments user
      let all_items_shown := ni ++ np
      let ac ← filter_comments_by_items all_comments all_items_shown
      pure (ni, np, ac)
  | none => .ok (new_issues, new_prs, all_comments)

/-- `activity[repo] = snapshot` on the insertion-ordered dictionary,
modelled as an association list: replace an existing entry for the key in
place, otherwise append. -/
def assocSet (l : List (String × Snapshot)) (k : String) (v : Snapshot) :
    List (String × Snapshot) :=
  if l.any (fun p => p.1 = k) then
    l.map (fun p => if p.1 = k then (k, v) else p)
  else l ++ [(k, v)]

/-- The repository loop of `fetch_all_activity` (lines 199-234): a snapshot
is stored when issues or PRs remain (line 216), and the totals are bumped
unless issues, PRs and comments are all empty (line 223's `continue`).
Output to the terminal is not modelled. -/
def fetchAllAux (fetch : String → RepoData) (github_user : Option String) :
    List String → List (String × Snapshot) → Counts →
    Except String (List (String × Snapshot) × Counts)
  | [], activity, counts => .ok (activity, counts)
  | repo :: rest, activity, counts => do
    let (ni, np, ac) ← processRepo (fetch repo) github_user
    let activity' := if ni.isEmpty && np.isEmpty then activity
                     else assocSet activity repo ⟨ni, np, ac⟩
    let counts' := if ni.isEmpty && np.isEmpty && ac.isEmpty then counts
                   else ⟨counts.issues + ni.length, counts.prs + np.length,
                         counts.comments + ac.length⟩
    fetchAllAux fetch github_user rest activity' counts'

/-- `fetch_all_activity` (activity.py lines 178-240). -/
def fetch_all_activity (repos : List String) (fetch : String → RepoData)
    (github_user : Option String) :
    Except String (List (String × Snapshot) × Counts) :=
  fetchAllAux fetch github_user repos [] ⟨0, 0, 0⟩

/-! ## Embedding of the GitHub-reference extraction (activity.py lines 12,
42-59) and the orphan-issue loop of check_boards (board_check.py lines
75-110)

`GITHUB_REF_PATTERN = re.compile(r"GitHub:\s*([^#\s]+#\d+)")` and
`findall` admit a direct determinization: at a given position the pattern
matches exactly when the text starts with `GitHub:`, followed by a possibly
empty whitespace run, then a non-empty run of characters that are neither
`#` nor whitespace ending exactly at a `#` (the character class excludes
`#`, so no backtracking can produce a different boundary), then at least one
digit; the captured group is the token, the `#`, and the maximal digit run.
`findall` scans left to right, resuming after each match, advancing one
character after a failed position. -/

/-- Python's `\s` class (`[ \t\n\r\f\v]`, the whitespace in descriptions). -/
def isPySpace (c : Char) : Bool :=
  c = ' ' || c = '\t' || c = '\n' || c = '\r' || c = '\x0b' || c = '\x0c'

/-- One attempted match of `GITHUB_REF_PATTERN` at the head of `l`: the
captured `org/repo#num` string and the rest of the text, or `none`. -/
def tryGithubRef (l : List Char) : Option (String × List Char) :=
  if l.take 7 = "GitHub:".data then
    let afterWs := (l.drop 7).dropWhile isPySpace
    let tok := afterWs.takeWhile (fun ch => !(ch = '#' || isPySpace ch))
    match afterWs.dropWhile (fun ch => !(ch = '#' || isPySpace ch)) with
    | '#' :: rest1 =>
      if tok = [] then none
      else
        let digits := rest1.takeWhile isAsciiDigit
        if digits = [] then none
        else some ((tok ++ '#' :: digits).asString, rest1.drop digits.length)
    | _ => none
  else none

theorem tryGithubRef_shrinks {l : List Char} {s : String} {rest : List Char}
    (h : tryGithubRef l = some (s, rest)) : rest.length < l.length := by
  unfold tryGithubRef at h
  split at h
  case isTrue h7 =>
    dsimp only at h
    have hlen7 : 7 ≤ l.length := by
      have hl := congrArg List.length h7
      have h7len : ("GitHub:".data).length = 7 := rfl
      rw [List.length_take, h7len] at hl
      omega
    have hdw : ((l.drop 7).dropWhile isPySpace).length ≤ l.length - 7 := by
      have h1 : ((l.drop 7).dropWhile isPySpace).length ≤ (l.drop 7).length :=
        List.Sublist.length_le (List.dropWhile_sublist _)
      rw [List.length_drop] at h1
      exact h1
    split at h
    case h_1 rest1 hr =>
      have hlt : rest1.length + 1 ≤ l.length - 7 := by
        have hsub : ('#' :: rest1).length ≤ ((l.drop 7).dropWhile isPySpace).length := by
          rw [← hr]
          exact List.Sublist.length_le (List.dropWhile_sublist _)
        simp only [List.length_cons] at hsub
        omega
      split at h
      · cases h
      · split at h
        · cases h
        · have hrest := (Prod.mk.injEq _ _ _ _ ▸ Option.some.injEq _ _ ▸ h).2
          have hdrop : (rest1.drop (rest1.takeWhile isAsciiDigit).length).length ≤
              rest1.length := by
            rw [List.length_drop]; omega
          rw [← hrest]
          omega
    case h_2 => cases h
  case isFalse => cases h

/-- `findall(GITHUB_REF_PATTERN, text)`: scan left to right, collecting
non-overlapping matches.  The fuel argument (instantiated with the text
length, which bounds the number of scanning steps since every step consumes
at least one character) makes the recursion structural. -/
def scanGithubRefs : Nat → List Char → List String
  | 0, _ => []
  | _, [] => []
  | fuel + 1, c :: rest =>
    match tryGithubRef (c :: rest) with
    | some (s, rest2) => s :: scanGithubRefs fuel rest2
    | none => scanGithubRefs fuel rest

/-- The fuel only needs to dominate the text length: `scanGithubRefs` is
fuel-irrelevant above that bound, so instantiating it with the length is
faithful to the unfueled scan. -/
theorem scanGithubRefs_fuel_irrelevant :
    ∀ (f₁ f₂ : Nat) (l : List Char), l.length ≤ f₁ → l.length ≤ f₂ →
      scanGithubRefs f₁ l = scanGithubRefs f₂ l := by
  intro f₁
  induction f₁ with
  | zero =>
    intro f₂ l h₁ _
    have : l = [] := List.length_eq_zero.mp (Nat.le_zero.mp h₁)
    subst this
    cases f₂ <;> rfl
  | succ n ih =>
    intro f₂ l h₁ h₂
    cases l with
    | nil => cases f₂ <;> rfl
    | cons c rest =>
      cases f₂ with
      | zero => simp at h₂
      | succ m =>
        simp only [scanGithubRefs]
        rcases hm : tryGithubRef (c :: rest) with _ | ⟨s, rest2⟩
        · simp only [List.length_cons] at h₁ h₂
          exact ih m rest (by omega) (by omega)
        · have hlt := tryGithubRef_shrinks hm
          simp only [List.length_cons] at h₁ h₂ hlt
          exact congrArg (s :: ·) (ih m rest2 (by omega) (by omega))

/-- `extract_github_refs_from_description` (activity.py lines 42-47):
`GITHUB_REF_PATTERN.findall(desc)`. -/
def extract_github_refs_from_description (desc : String) : List String :=
  scanGithubRefs desc.data.length desc.data

/-- A bead record as read by `collect_all_github_refs` and `check_boards`:
only `description` is accessed, via `.get("description", "")`. -/
structure Bead where
  description : Option String
deriving DecidableEq, Repr

/-- `collect_all_github_refs` (activity.py lines 50-59).  The Python `set`
is modelled as a list used only through membership. -/
def collect_all_github_refs (beads : List Bead) : List String :=
  beads.flatMap (fun bead =>
    extract_github_refs_from_description (bead.description.getD ""))

/-- The `content` sub-dictionary of a board item, read with `.get`. -/
structure BoardContent where
  type : Option String
  repository : Option String
  number : Option Int
deriving DecidableEq, Repr

/-- A board item as read by `check_boards`: `status` via
`.get("status", "")` and `content` via `.get("content", {})`. -/
structure BoardItem where
  status : Option String
  content : Option BoardContent
deriving DecidableEq, Repr

/-- ASCII lowercasing, as `str.lower()` acts on the ASCII status labels this
code compares (`"done"`). -/
def lowerChar (c : Char) : Char :=
  if 65 ≤ c.toNat ∧ c.toNat ≤ 90 then Char.ofNat (c.toNat + 32) else c

/-- `status.lower()` on a status label. -/
def lowerStr (s : String) : String :=
  (s.data.map lowerChar).asString

/-- The empty `content` dictionary used as the `.get("content", {})`
default. -/
def emptyContent : BoardContent := ⟨none, none, none⟩

/-- The item-partition test of board_check.py lines 75-81: keep the items
whose `content.get("type", "")` is `"Issue"`. -/
def issueItemsOf (board_items : List BoardItem) : List BoardItem :=
  board_items.filter (fun item => (item.content.getD emptyContent).type.getD "" = "Issue")

/-- Python truthiness of `content.get("number")`: false for `None` and `0`. -/
def numberTruthy : Option Int → Bool
  | some n => n != 0
  | none => false

/-- `f"{repo}#{number}"` for a truthy number. -/
def refString (repo : String) (n : Int) : String :=
  repo ++ "#" ++ toString n

/-- The orphan-issue loop of `check_boards` (board_check.py lines 98-110):
skip items whose status lowercases to `"done"`; an item with a truthy
repository and number is an orphan when its `repo#number` string is not in
the collected bead references. -/
def orphanIssuesOf (issue_items : List BoardItem) (github_refs : List String) :
    List BoardItem :=
  match issue_items with
  | [] => []
  | item :: rest =>
    if lowerStr (item.status.getD "") = "done" then orphanIssuesOf rest github_refs
    else
      let content := item.content.getD emptyContent
      let repo := content.repository.getD ""
      if repo ≠ "" ∧ numberTruthy content.number then
        if refString repo ((content.number).getD 0) ∉ github_refs then
          item :: orphanIssuesOf rest github_refs
        else orphanIssuesOf rest github_refs
      else orphanIssuesOf rest github_refs

/-! ## Embedding of `sync_board_with_beads` (src/flowc/board/sync.py lines
75-134)

The collaborators `get_p0_beads_with_github_refs()` and
`get_board_issues(board_key)` read external state (the tracker file and the
board); their results are passed in as the record lists they return.  The
board-mutation collaborator `add_issue_to_board` is a function parameter
returning Python's `(success, message)` pair; alongside the Python return
value, the embedding returns the trace of board-mutation commands issued, so
that what was and was not done to the board is provable. -/

/-- A record produced by `get_p0_beads_with_github_refs` (sync.py lines
32-39). -/
structure P0Bead where
  bead_id : String
  title : String
  repo : String
  issue_number : Int
deriving DecidableEq, Repr

/-- A record produced by `get_board_issues` (sync.py lines 62-69). -/
structure BoardIssue where
  item_id : Option String
  title : String
  repo : String
  issue_number : Int
  status : String
deriving DecidableEq, Repr

/-- A board mutation that `sync.py` could issue: `add_issue_to_board` (line
111) or `remove_issue_from_board` (present only in the commented-out block,
lines 122-128). -/
inductive BoardCommand where
  | add (board_key : String) (issue_number : Int) (repo : String) (status : Option String)
  | remove (board_key : String) (issue_number : Int) (repo : String)
deriving DecidableEq, Repr

/-- The dictionary returned by `sync_board_with_beads` (lines 130-134). -/
structure SyncResult where
  missing_from_board : List P0Bead
  not_in_beads : List BoardIssue
  fixes_applied : List String
deriving DecidableEq, Repr

/-- The fix loop of sync.py lines 110-120: call the collaborator for each
missing bead in order and record one success or failure note per call;
also accumulate the trace of issued commands. -/
def applyFixes (add : String → Int → String → Option String → Bool × String)
    (board_key : String) : List P0Bead → List String × List BoardCommand
  | [] => ([], [])
  | bead :: rest =>
    let result := add board_key bead.issue_number bead.repo (some "next")
    let note :=
      if result.1 then
        "Added #" ++ toString bead.issue_number ++ " to board"
      else
        "Failed to add #" ++ toString bead.issue_number ++ ": " ++ result.2
    let (notes, cmds) := applyFixes add board_key rest
    (note :: notes,
     BoardCommand.add board_key bead.issue_number bead.repo (some "next") :: cmds)

/-- `sync_board_with_beads` (sync.py lines 75-134).  The Python ref `set`s
are modelled as lists used only through membership.  Returns the result
dictionary together with the trace of board mutations issued. -/
def sync_board_with_beads (add : String → Int → String → Option String → Bool × String)
    (board_key : String) (p0_beads : List P0Bead) (board_issues : List BoardIssue)
    (fix : Bool) : SyncResult × List BoardCommand :=
  let p0_refs : List (String × Int) := p0_beads.map (fun b => (b.repo, b.issue_number))
  let board_refs : List (String × Int) :=
    board_issues.map (fun i => (i.repo, i.issue_number))
  let missing_from_board :=
    p0_beads.filter (fun b => decide ((b.repo, b.issue_number) ∉ board_refs))
  let not_in_beads :=
    board_issues.filter (fun i => decide ((i.repo, i.issue_number) ∉ p0_refs))
  if fix then
    let fc := applyFixes add board_key missing_from_board
    (⟨missing_from_board, not_in_beads, fc.1⟩, fc.2)
  else
    (⟨missing_from_board, not_in_beads, []⟩, [])

/-! ## Embedding of `fetch_channel_activity` (src/fc_cli/digest/cli.py lines
44-90)

The collaborators `fetch_issues`, `fetch_item_commenters` and
`fetch_pr_reviewers` become function parameters. -/

/-- The `user` sub-dictionary of a digest item, read with `.get`. -/
structure RawUser where
  login : Option String
deriving DecidableEq, Repr

/-- The `pull_request` sub-dictionary of a digest item, read with `.get`. -/
structure RawPull where
  merged_at : Option String
deriving DecidableEq, Repr

/-- A raw GitHub issue/PR record with the keys `digest/cli.py` reads.
`number` and `title` are indexed directly, everything else via `.get`;
`is_pr` is the presence test `"pull_request" in item`. -/
structure RawItem where
  number : Int
  title : String
  user : Option RawUser
  pull_request : Option RawPull
  state : Option String
  html_url : Option String
  created_at : Option String
  updated_at : Option String
deriving DecidableEq, Repr

/-- The dictionary appended per item (digest/cli.py lines 75-89).  Python's
`merged` value is `False`, `None` or a timestamp string; the two falsy cases
collapse to `none`. -/
structure DigestItem where
  ref : String
  number : Int
  title : String
  author : String
  is_pr : Bool
  state : String
  merged : Option String
  html_url : String
  created_at : String
  updated_at : String
  contributors : List String
deriving DecidableEq, Repr

/-- `set.add`-style insertion for the Python `set` of contributor logins,
modelled as an insertion-ordered duplicate-free list.  (CPython iterates a
set in hash order; every property stated below — membership, freedom from
duplicates, sortedness of the final key-sorted list — is independent of
that order.) -/
def setInsert (l : List String) (x : String) : List String :=
  if x ∈ l then l else l ++ [x]

/-- `contributors.update(xs)`. -/
def setUpdate (l : List String) (xs : List String) : List String :=
  xs.foldl setInsert l

/-- Case-insensitive ordering: `sorted(..., key=str.lower)`, with
`str.lower` acting on the ASCII login characters. -/
def caseLe (a b : String) : Bool :=
  keyLe lowerStr a b

/-- The contributor computation of `fetch_channel_activity` (digest/cli.py
lines 62-73): author plus commenters plus (for PRs) reviewers, `"unknown"`
discarded, sorted case-insensitively. -/
def computeContributors (author : String) (commenters : List String)
    (reviewers : List String) (is_pr : Bool) : List String :=
  let contributors := setUpdate [author] commenters
  let contributors := if is_pr then setUpdate contributors reviewers else contributors
  let contributors := contributors.filter (fun s => s ≠ "unknown")
  sortStable caseLe contributors

/-- `fetch_channel_activity` (digest/cli.py lines 44-90). -/
def fetch_channel_activity (repos : List String)
    (fetchIssues : String → List RawItem)
    (fetchCommenters : String → Int → List String)
    (fetchReviewers : String → Int → List String) : List DigestItem :=
  repos.flatMap (fun repo =>
    (fetchIssues repo).map (fun item =>
      let is_pr := item.pull_request.isSome
      let author := (item.user.getD ⟨none⟩).login.getD "unknown"
      let commenters := fetchCommenters repo item.number
      let reviewers := fetchReviewers repo item.number
      { ref := repo ++ "#" ++ toString item.number
        number := item.number
        title := item.title
        author := author
        is_pr := is_pr
        state := item.state.getD "open"
        merged := if is_pr then item.pull_request.bind RawPull.merged_at else none
        html_url := item.html_url.getD ""
        created_at := item.created_at.getD ""
        updated_at := item.updated_at.getD ""
        contributors := computeContributors author commenters reviewers is_pr }))

/-! ## Claims C7 and C8: P0 board sync -/

theorem sync_components (add : String → Int → String → Option String → Bool × String)
    (board_key : String) (p0_beads : List P0Bead) (board_issues : List BoardIssue)
    (fix : Bool) :
    (sync_board_with_beads add board_key p0_beads board_issues fix).1.missing_from_board =
      p0_beads.filter (fun b => decide ((b.repo, b.issue_number) ∉
        board_issues.map (fun i => (i.repo, i.issue_number)))) ∧
    (sync_board_with_beads add board_key p0_beads board_issues fix).1.not_in_beads =
      board_issues.filter (fun i => decide ((i.repo, i.issue_number) ∉
        p0_beads.map (fun b => (b.repo, b.issue_number)))) := by
  cases fix <;> exact ⟨rfl, rfl⟩

/-- C7: the (repo, issue_number) keys of `missing_from_board` and
`not_in_beads` are disjoint, for every input. -/
theorem sync_missing_not_in_beads_disjoint
    (add : String → Int → String → Option String → Bool × String)
    (board_key : String) (p0_beads : List P0Bead) (board_issues : List BoardIssue)
    (fix : Bool) (k : String × Int)
    (hmiss : k ∈ (sync_board_with_beads add board_key p0_beads board_issues
      fix).1.missing_from_board.map (fun b => (b.repo, b.issue_number))) :
    k ∉ (sync_board_with_beads add board_key p0_beads board_issues
      fix).1.not_in_beads.map (fun i => (i.repo, i.issue_number)) := by
  intro hboard
  rw [(sync_components add board_key p0_beads board_issues fix).1] at hmiss
  rw [(sync_components add board_key p0_beads board_issues fix).2] at hboard
  rcases List.mem_map.mp hmiss with ⟨b, hbmem, hbk⟩
  rcases List.mem_map.mp hboard with ⟨i, himem, hik⟩
  have hbpred := (List.mem_filter.mp hbmem).2
  have hinot : (b.repo, b.issue_number) ∉
      board_issues.map (fun i => (i.repo, i.issue_number)) :=
    of_decide_eq_true hbpred
  apply hinot
  rw [hbk, ← hik]
  exact List.mem_map.mpr ⟨i, (List.mem_filter.mp himem).1, rfl⟩

/-- Witness for C7: one P0 bead missing from an empty board; its key is in
`missing_from_board` and (vacuously) not among the `not_in_beads` keys. -/
theorem sync_missing_not_in_beads_disjoint_witness :
    (("org/repo", (1 : Int)) ∈ (sync_board_with_beads (fun _ _ _ _ => (true, ""))
      "matsengrp/30" [⟨"b-1", "t", "org/repo", 1⟩] [] false).1.missing_from_board.map
        (fun b => (b.repo, b.issue_number))) ∧
    (("org/repo", (1 : Int)) ∉ (sync_board_with_beads (fun _ _ _ _ => (true, ""))
      "matsengrp/30" [⟨"b-1", "t", "org/repo", 1⟩] [] false).1.not_in_beads.map
        (fun i => (i.repo, i.issue_number))) :=
  ⟨by decide,
   sync_missing_not_in_beads_disjoint (fun _ _ _ _ => (true, "")) "matsengrp/30"
     [⟨"b-1", "t", "org/repo", 1⟩] [] false ("org/repo", 1) (by decide)⟩

theorem applyFixes_eq (add : String → Int → String → Option String → Bool × String)
    (board_key : String) :
    ∀ l : List P0Bead,
      applyFixes add board_key l =
        (l.map (fun bead =>
           if (add board_key bead.issue_number bead.repo (some "next")).1 then
             "Added #" ++ toString bead.issue_number ++ " to board"
           else
             "Failed to add #" ++ toString bead.issue_number ++ ": " ++
               (add board_key bead.issue_number bead.repo (some "next")).2),
         l.map (fun bead =>
           BoardCommand.add board_key bead.issue_number bead.repo (some "next"))) := by
  intro l
  induction l with
  | nil => rfl
  | cons bead rest ih =>
    unfold applyFixes
    rw [ih]
    rfl

/-- C8: with `fix = True`, exactly one note is recorded per
`missing_from_board` entry — a success note, or a failure note carrying the
collaborator's message — and one add command with default status `"next"`
is issued per entry, in order, independent of the other entries' outcomes;
no remove command is ever issued, for either value of `fix`. -/
theorem sync_fix_behaviour (add : String → Int → String → Option String → Bool × String)
    (board_key : String) (p0_beads : List P0Bead) (board_issues : List BoardIssue) :
    (sync_board_with_beads add board_key p0_beads board_issues true).1.fixes_applied =
      (sync_board_with_beads add board_key p0_beads board_issues
        true).1.missing_from_board.map (fun bead =>
          if (add board_key bead.issue_number bead.repo (some "next")).1 then
            "Added #" ++ toString bead.issue_number ++ " to board"
          else
            "Failed to add #" ++ toString bead.issue_number ++ ": " ++
              (add board_key bead.issue_number bead.repo (some "next")).2) ∧
    (sync_board_with_beads add board_key p0_beads board_issues true).2 =
      (sync_board_with_beads add board_key p0_beads board_issues
        true).1.missing_from_board.map (fun bead =>
          BoardCommand.add board_key bead.issue_number bead.repo (some "next")) ∧
    (∀ (fix : Bool) (bk : String) (n : Int) (rp : String),
      BoardCommand.remove bk n rp ∉
        (sync_board_with_beads add board_key p0_beads board_issues fix).2) := by
  refine ⟨?_, ?_, ?_⟩
  · show (applyFixes add board_key _).1 = _
    rw [applyFixes_eq]
    rfl
  · show (applyFixes add board_key _).2 = _
    rw [applyFixes_eq]
    rfl
  · intro fix bk n rp hmem
    cases fix
    · cases hmem
    · have h2 : BoardCommand.remove bk n rp ∈ (applyFixes add board_key
          (p0_beads.filter (fun b => decide ((b.repo, b.issue_number) ∉
            board_issues.map (fun i => (i.repo, i.issue_number)))))).2 := hmem
      rw [applyFixes_eq] at h2
      rcases List.mem_map.mp h2 with ⟨b, _, hb⟩
      cases hb

/-! ## Claim C6: orphan-issue detection -/

/-- The condition under which the orphan loop keeps an item. -/
def orphanTest (github_refs : List String) (item : BoardItem) : Bool :=
  (!decide (lowerStr (item.status.getD "") = "done")) &&
  (decide (¬(item.content.getD emptyContent).repository.getD "" = "") &&
   numberTruthy (item.content.getD emptyContent).number) &&
  decide (refString ((item.content.getD emptyContent).repository.getD "")
      (((item.content.getD emptyContent).number).getD 0) ∉ github_refs)

theorem orphanIssuesOf_eq_filter (github_refs : List String) :
    ∀ l : List BoardItem, orphanIssuesOf l github_refs =
      l.filter (orphanTest github_refs) := by
  intro l
  induction l with
  | nil => rfl
  | cons item rest ih =>
    unfold orphanIssuesOf
    rw [List.filter_cons]
    by_cases h1 : lowerStr (item.status.getD "") = "done"
    · rw [if_pos h1, ih]
      have ht : orphanTest github_refs item = false := by
        simp [orphanTest, h1]
      rw [ht]
      simp
    · rw [if_neg h1]
      by_cases h2 : ¬(item.content.getD emptyContent).repository.getD "" = "" ∧
          numberTruthy (item.content.getD emptyContent).number = true
      · by_cases h3 : refString ((item.content.getD emptyContent).repository.getD "")
            (((item.content.getD emptyContent).number).getD 0) ∉ github_refs
        · rw [if_pos ⟨h2.1, h2.2⟩, if_pos h3, ih]
          have ht : orphanTest github_refs item = true := by
            simp [orphanTest, h1, h2.1, h2.2, h3]
          rw [ht]
          simp
        · rw [if_pos ⟨h2.1, h2.2⟩, if_neg h3, ih]
          have ht : orphanTest github_refs item = false := by
            simp only [not_not] at h3
            simp [orphanTest, h3]
          rw [ht]
          simp
      · rw [if_neg (by
          intro hcon
          exact h2 ⟨hcon.1, hcon.2⟩), ih]
        have ht : orphanTest github_refs item = false := by
          rcases not_and_or.mp h2 with h2a | h2b
          · simp only [not_not] at h2a
            simp [orphanTest, h2a]
          · simp [orphanTest, Bool.eq_false_iff.mpr h2b]
        rw [ht]
        simp

/-- C6: in the orphan-issue loop of `check_boards`, an Issue-type board item
whose status is "done" case-insensitively is never reported as an orphan;
an Issue-type item with a non-done status and a truthy (repository, number)
reference is an orphan iff its `repo#number` string is absent from the set
of GitHub cross-references collected over all beads' descriptions. -/
theorem check_boards_orphan_issues (board_items : List BoardItem)
    (beads : List Bead) (item : BoardItem) :
    (lowerStr (item.status.getD "") = "done" →
      item ∉ orphanIssuesOf (issueItemsOf board_items)
        (collect_all_github_refs beads)) ∧
    (∀ repo n, item ∈ issueItemsOf board_items →
      ¬lowerStr (item.status.getD "") = "done" →
      (item.content.getD emptyContent).repository.getD "" = repo →
      ¬repo = "" →
      (item.content.getD emptyContent).number = some n →
      ¬n = 0 →
      (item ∈ orphanIssuesOf (issueItemsOf board_items)
          (collect_all_github_refs beads) ↔
        refString repo n ∉ collect_all_github_refs beads)) := by
  rw [orphanIssuesOf_eq_filter]
  constructor
  · intro hdone hmem
    have := (List.mem_filter.mp hmem).2
    simp [orphanTest, hdone] at this
  · intro repo n hmem hdone hrepo hrne hnum hn0
    constructor
    · intro hmem2
      have ht := (List.mem_filter.mp hmem2).2
      unfold orphanTest at ht
      rw [hrepo, hnum] at ht
      simp only [Option.getD_some, Bool.and_eq_true] at ht
      exact of_decide_eq_true ht.2
    · intro hnotin
      refine List.mem_filter.mpr ⟨hmem, ?_⟩
      unfold orphanTest
      rw [hrepo, hnum]
      simp only [Option.getD_some]
      simp [hdone, hrne, hnotin, numberTruthy, hn0]

/-- Witness for C6: a "Done" board issue missing from the beads is not an
orphan; an active board issue missing from the beads is an orphan (and one
whose reference appears in a bead description is not, by the same iff). -/
theorem check_boards_orphan_issues_witness :
    ((Bipartite.lowerStr ((some "Done" : Option String).getD "") = "done" →
      (⟨some "Done", some ⟨some "Issue", some "org/repo", some 3⟩⟩ : BoardItem) ∉
        orphanIssuesOf
          (issueItemsOf
            [⟨some "Done", some ⟨some "Issue", some "org/repo", some 3⟩⟩,
             ⟨some "Next", some ⟨some "Issue", some "org/repo", some 12⟩⟩])
          (collect_all_github_refs
            [⟨some "GitHub: org/other#5 tracked elsewhere"⟩]))) ∧
    (((⟨some "Next", some ⟨some "Issue", some "org/repo", some 12⟩⟩ : BoardItem) ∈
        orphanIssuesOf
          (issueItemsOf
            [⟨some "Done", some ⟨some "Issue", some "org/repo", some 3⟩⟩,
             ⟨some "Next", some ⟨some "Issue", some "org/repo", some 12⟩⟩])
          (collect_all_github_refs
            [⟨some "GitHub: org/other#5 tracked elsewhere"⟩])) ↔
      refString "org/repo" 12 ∉ collect_all_github_refs
        [⟨some "GitHub: org/other#5 tracked elsewhere"⟩]) :=
  ⟨(check_boards_orphan_issues
      [⟨some "Done", some ⟨some "Issue", some "org/repo", some 3⟩⟩,
       ⟨some "Next", some ⟨some "Issue", some "org/repo", some 12⟩⟩]
      [⟨some "GitHub: org/other#5 tracked elsewhere"⟩]
      ⟨some "Done", some ⟨some "Issue", some "org/repo", some 3⟩⟩).1,
   (check_boards_orphan_issues
      [⟨some "Done", some ⟨some "Issue", some "org/repo", some 3⟩⟩,
       ⟨some "Next", some ⟨some "Issue", some "org/repo", some 12⟩⟩]
      [⟨some "GitHub: org/other#5 tracked elsewhere"⟩]
      ⟨some "Next", some ⟨some "Issue", some "org/repo", some 12⟩⟩).2
     "org/repo" 12 (by decide) (by decide) (by decide) (by decide)
     (by decide) (by decide)⟩

/-! ## Claim C9: contributor lists -/

theorem mem_setInsert (l : List String) (x y : String) :
    y ∈ setInsert l x ↔ y = x ∨ y ∈ l := by
  unfold setInsert
  by_cases h : x ∈ l
  · rw [if_pos h]
    constructor
    · exact Or.inr
    · rintro (rfl | hy)
      · exact h
      · exact hy
  · rw [if_neg h]
    rw [List.mem_append, List.mem_singleton]
    tauto

theorem nodup_setInsert (l : List String) (x : String) (h : l.Nodup) :
    (setInsert l x).Nodup := by
  unfold setInsert
  by_cases hx : x ∈ l
  · rw [if_pos hx]; exact h
  · rw [if_neg hx]
    refine List.Nodup.append h (List.nodup_singleton x) ?_
    intro a ha hax
    rw [List.mem_singleton] at hax
    subst hax
    exact hx ha

theorem mem_setUpdate (xs : List String) :
    ∀ (l : List String) (y : String), y ∈ setUpdate l xs ↔ y ∈ l ∨ y ∈ xs := by
  induction xs with
  | nil => intro l y; simp [setUpdate]
  | cons x rest ih =>
    intro l y
    show y ∈ setUpdate (setInsert l x) rest ↔ _
    rw [ih (setInsert l x) y, mem_setInsert]
    constructor
    · rintro ((rfl | hy) | hy)
      · exact Or.inr (by simp)
      · exact Or.inl hy
      · exact Or.inr (List.mem_cons_of_mem _ hy)
    · rintro (hy | hy)
      · exact Or.inl (Or.inr hy)
      · rcases List.mem_cons.mp hy with rfl | hy'
        · exact Or.inl (Or.inl rfl)
        · exact Or.inr hy'

theorem nodup_setUpdate (xs : List String) :
    ∀ l : List String, l.Nodup → (setUpdate l xs).Nodup := by
  induction xs with
  | nil => intro l h; exact h
  | cons x rest ih =>
    intro l h
    exact ih (setInsert l x) (nodup_setInsert l x h)

/-- The three properties the claim states of a contributor list: it contains
exactly the non-"unknown" members of author ∪ commenters ∪ (reviewers when a
PR), has no duplicates, and is sorted case-insensitively. -/
theorem computeContributors_spec (author : String) (commenters reviewers : List String)
    (is_pr : Bool) :
    (∀ s, s ∈ computeContributors author commenters reviewers is_pr ↔
      ((s = author ∨ s ∈ commenters ∨ (is_pr = true ∧ s ∈ reviewers)) ∧
        ¬s = "unknown")) ∧
    (computeContributors author commenters reviewers is_pr).Nodup ∧
    (computeContributors author commenters reviewers is_pr).Pairwise
      (fun a b => caseLe a b = true) := by
  unfold computeContributors
  refine ⟨?_, ?_, ?_⟩
  · intro s
    rw [(sortStable_perm _ _).mem_iff, List.mem_filter]
    have hU : s ∈ (if is_pr then setUpdate (setUpdate [author] commenters) reviewers
        else setUpdate [author] commenters) ↔
        (s = author ∨ s ∈ commenters ∨ (is_pr = true ∧ s ∈ reviewers)) := by
      cases is_pr
      · show s ∈ setUpdate [author] commenters ↔ _
        rw [mem_setUpdate]
        simp
      · show s ∈ setUpdate (setUpdate [author] commenters) reviewers ↔ _
        rw [mem_setUpdate, mem_setUpdate]
        simp [or_assoc]
    rw [hU]
    simp
  · refine (sortStable_perm _ _).symm.nodup ?_
    refine List.Nodup.filter _ ?_
    cases is_pr
    · show (setUpdate [author] commenters).Nodup
      exact nodup_setUpdate commenters [author] (List.nodup_singleton author)
    · show (setUpdate (setUpdate [author] commenters) reviewers).Nodup
      exact nodup_setUpdate reviewers _
        (nodup_setUpdate commenters [author] (List.nodup_singleton author))
  · exact sortStable_sorted caseLe (keyLe_total lowerStr)
      (fun h₁ h₂ => keyLe_trans lowerStr h₁ h₂) _

/-- C9: every item produced by `fetch_channel_activity` carries a
contributors field that is exactly the author/commenter/(PR-)reviewer union
with `"unknown"` removed, deduplicated, and sorted case-insensitively. -/
theorem fetch_channel_activity_contributors (repos : List String)
    (fetchIssues : String → List RawItem)
    (fetchCommenters : String → Int → List String)
    (fetchReviewers : String → Int → List String) (d : DigestItem)
    (hd : d ∈ fetch_channel_activity repos fetchIssues fetchCommenters fetchReviewers) :
    ∃ repo item, repo ∈ repos ∧ item ∈ fetchIssues repo ∧
      d.author = (item.user.getD ⟨none⟩).login.getD "unknown" ∧
      d.is_pr = item.pull_request.isSome ∧
      d.contributors = computeContributors d.author
        (fetchCommenters repo item.number) (fetchReviewers repo item.number) d.is_pr ∧
      (∀ s, s ∈ d.contributors ↔
        ((s = d.author ∨ s ∈ fetchCommenters repo item.number ∨
          (d.is_pr = true ∧ s ∈ fetchReviewers repo item.number)) ∧
          ¬s = "unknown")) ∧
      d.contributors.Nodup ∧
      d.contributors.Pairwise (fun a b => caseLe a b = true) := by
  unfold fetch_channel_activity at hd
  rcases List.mem_flatMap.mp hd with ⟨repo, hrepo, hmem⟩
  rcases List.mem_map.mp hmem with ⟨item, hitem, hd2⟩
  subst hd2
  refine ⟨repo, item, hrepo, hitem, rfl, rfl, rfl, ?_⟩
  exact computeContributors_spec _ _ _ _

/-- Witness for C9: one PR whose author login is unresolvable
(`"unknown"`), one commenter, one reviewer; the contributor list is the
case-insensitively sorted `["alice", "Bob"]` with `"unknown"` discarded. -/
theorem fetch_channel_activity_contributors_witness :
    ((⟨"r#7", 7, "t", "unknown", true, "open", none, "", "", "",
        ["alice", "Bob"]⟩ : DigestItem) ∈
      fetch_channel_activity ["r"]
        (fun _ => [⟨7, "t", none, some ⟨none⟩, none, none, none, none⟩])
        (fun _ _ => ["Bob"]) (fun _ _ => ["alice"])) ∧
    (∃ repo item, repo ∈ ["r"] ∧
      item ∈ (fun (_ : String) =>
        [(⟨7, "t", none, some ⟨none⟩, none, none, none, none⟩ : RawItem)]) repo ∧
      (⟨"r#7", 7, "t", "unknown", true, "open", none, "", "", "",
         ["alice", "Bob"]⟩ : DigestItem).author =
        (item.user.getD ⟨none⟩).login.getD "unknown" ∧
      (⟨"r#7", 7, "t", "unknown", true, "open", none, "", "", "",
         ["alice", "Bob"]⟩ : DigestItem).is_pr = item.pull_request.isSome ∧
      (⟨"r#7", 7, "t", "unknown", true, "open", none, "", "", "",
         ["alice", "Bob"]⟩ : DigestItem).contributors =
        computeContributors "unknown" ["Bob"] ["alice"] true ∧
      (∀ s, s ∈ (⟨"r#7", 7, "t", "unknown", true, "open", none, "", "", "",
         ["alice", "Bob"]⟩ : DigestItem).contributors ↔
        ((s = "unknown" ∨ s ∈ ["Bob"] ∨ (true = true ∧ s ∈ ["alice"])) ∧
          ¬s = "unknown")) ∧
      (["alice", "Bob"] : List String).Nodup ∧
      (["alice", "Bob"] : List String).Pairwise (fun a b => caseLe a b = true)) := by
  constructor
  · decide
  · have key := fetch_channel_activity_contributors ["r"]
      (fun _ => [⟨7, "t", none, some ⟨none⟩, none, none, none, none⟩])
      (fun _ _ => ["Bob"]) (fun _ _ => ["alice"])
      ⟨"r#7", 7, "t", "unknown", true, "open", none, "", "", "", ["alice", "Bob"]⟩
      (by decide)
    exact key

/-! ## Operational (heap) model of the list operations in activity.py

Python lists are mutable heap objects passed by reference.  To state that
`ball_in_my_court`, `filter_by_ball_in_court` and `filter_comments_by_items`
do not mutate their arguments, the lists they receive are placed in an
explicit store of cells addressed by index; a list comprehension allocates a
fresh cell at the end of the store, and the in-place
`item_comments.sort(key=...)` (activity.py line 142) overwrites the fresh
cell it was called on.  Allocation only appends, so "the caller's lists are
unchanged" is "the store's original prefix is preserved". -/

/-- A store of Python list objects: comment-list cells and item-list cells,
addressed by position.  New objects are appended. -/
structure Heap where
  commentCells : List (List Comment)
  itemCells : List (List Item)
deriving Repr

/-- `ball_in_my_court` acting on a comments-list reference `ca`.  The
comprehension of line 135 allocates a fresh comment cell; line 142's
`item_comments.sort(key=...)` overwrites that fresh cell in place.  (On a
raised error the partially built comprehension cell is unobservable and is
not modelled.) -/
def ballInMyCourtH (h : Heap) (item : Item) (ca : Nat) (github_user : String) :
    Except String Bool × Heap :=
  let comments := h.commentCells.getD ca []
  match selectItemComments item.number comments with
  | .error e => (.error e, h)
  | .ok item_comments =>
    let fresh := h.commentCells.length
    let h1 : Heap := ⟨h.commentCells ++ [item_comments], h.itemCells⟩
    if item_comments.isEmpty then
      (.ok (!(item.user.login = github_user)), h1)
    else
      let sorted := sortStable commentLe item_comments
      let h2 : Heap := ⟨h1.commentCells.set fresh sorted, h1.itemCells⟩
      match sorted.getLast? with
      | none => (.ok false, h2)   -- unreachable: item_comments is non-empty
      | some last =>
        let lc := lastCommenterLogin last
        (.ok (lc != "" && lc != github_user), h2)

/-- The item loop of `filter_by_ball_in_court`, threading the store through
the per-item calls to `ball_in_my_court`. -/
def filterByBallAuxH (ca : Nat) (github_user : String) :
    Heap → List Item → Except String (List Item) × Heap
  | h, [] => (.ok [], h)
  | h, item :: rest =>
    match ballInMyCourtH h item ca github_user with
    | (.error e, h') => (.error e, h')
    | (.ok b, h') =>
      match filterByBallAuxH ca github_user h' rest with
      | (.error e, h'') => (.error e, h'')
      | (.ok others, h'') => (.ok (if b then item :: others else others), h'')

/-- `filter_by_ball_in_court` acting on an items-list reference `ia` and a
comments-list reference `ca`; the result comprehension allocates a fresh
item cell whose address is returned. -/
def filterByBallInCourtH (h : Heap) (ia ca : Nat) (github_user : String) :
    Except String Nat × Heap :=
  let items := h.itemCells.getD ia []
  match filterByBallAuxH ca github_user h items with
  | (.error e, h') => (.error e, h')
  | (.ok kept, h') => (.ok h'.itemCells.length, ⟨h'.commentCells, h'.itemCells ++ [kept]⟩)

/-- `filter_comments_by_items` acting on references: reads both argument
cells, allocates the result comprehension as a fresh comment cell. -/
def filterCommentsByItemsH (h : Heap) (ca ia : Nat) :
    Except String Nat × Heap :=
  let comments := h.commentCells.getD ca []
  let items := h.itemCells.getD ia []
  match filter_comments_by_items comments items with
  | .error e => (.error e, h)
  | .ok kept => (.ok h.commentCells.length, ⟨h.commentCells ++ [kept], h.itemCells⟩)

/-- Store extension: every cell that existed before still holds the same
list (new cells may have been appended). -/
def heapExtends (h' h : Heap) : Prop :=
  h'.commentCells.take h.commentCells.length = h.commentCells ∧
  h'.itemCells.take h.itemCells.length = h.itemCells

theorem take_eq_length_le {α : Type} {l l2 : List α} (h : l2.take l.length = l) :
    l.length ≤ l2.length := by
  have hl := congrArg List.length h
  rw [List.length_take] at hl
  omega

theorem take_prefix_trans {α : Type} {l1 l2 l3 : List α}
    (h21 : l2.take l1.length = l1) (h32 : l3.take l2.length = l2) :
    l3.take l1.length = l1 := by
  have hle : l1.length ≤ l2.length := take_eq_length_le h21
  calc l3.take l1.length = (l3.take l2.length).take l1.length := by
        rw [List.take_take, Nat.min_eq_left hle]
    _ = l2.take l1.length := by rw [h32]
    _ = l1 := h21

theorem heapExtends_refl (h : Heap) : heapExtends h h :=
  ⟨List.take_length _, List.take_length _⟩

theorem heapExtends_trans {h₁ h₂ h₃ : Heap} (h21 : heapExtends h₂ h₁)
    (h32 : heapExtends h₃ h₂) : heapExtends h₃ h₁ :=
  ⟨take_prefix_trans h21.1 h32.1, take_prefix_trans h21.2 h32.2⟩

theorem getD_preserved {α : Type} {l l2 : List α} (h : l2.take l.length = l)
    {k : Nat} (hk : k < l.length) (d : α) : l2.getD k d = l.getD k d := by
  rw [List.getD_eq_getElem?_getD, List.getD_eq_getElem?_getD, ← h,
    List.getElem?_take]
  simp [hk]

theorem take_append_one {α : Type} (l : List α) (x : α) :
    (l ++ [x]).take l.length = l := List.take_left l [x]

theorem take_append_set {α : Type} (l : List α) (x y : α) :
    ((l ++ [x]).set l.length y).take l.length = l := by
  apply List.ext_getElem?
  intro n
  rw [List.getElem?_take]
  split
  · rename_i hn
    rw [List.getElem?_set_ne (by omega), List.getElem?_append]
    simp [hn]
  · rename_i hn
    rw [List.getElem?_eq_none (by omega)]

theorem getD_append_length {α : Type} (l : List α) (x : α) (d : α) :
    (l ++ [x]).getD l.length d = x := by
  rw [List.getD_eq_getElem?_getD, List.getElem?_append]
  simp

/-! ## Properties of the comment-selection comprehension -/

/-- Whether evaluating `get_comment_item_number` on this comment returns
normally (rather than raising). -/
def resolvesOkB (c : Comment) : Bool :=
  match get_comment_item_number c with
  | .ok _ => true
  | .error _ => false

/-- The comments of the corpus that resolve to item number `n`. -/
def resolvedTo (n : Int) (cs : List Comment) : List Comment :=
  cs.filter (fun c => decide (get_comment_item_number c = .ok (some n)))

theorem selectItemComments_eq (n : Int) (cs : List Comment)
    (hok : ∀ c ∈ cs, resolvesOkB c = true) :
    selectItemComments n cs = .ok (resolvedTo n cs) := by
  induction cs with
  | nil => rfl
  | cons c rest ih =>
    have hc := hok c (by simp)
    have ihr := ih (fun d hd => hok d (List.mem_cons_of_mem _ hd))
    rcases hv : get_comment_item_number c with e | v
    · simp [resolvesOkB, hv] at hc
    · show (get_comment_item_number c).bind _ = _
      rw [hv]
      show (selectItemComments n rest).bind _ = _
      rw [ihr]
      show Except.ok (if v = some n then c :: resolvedTo n rest else resolvedTo n rest) = _
      by_cases hvn : v = some n
      · simp [resolvedTo, List.filter_cons, hv, hvn]
      · simp [resolvedTo, List.filter_cons, hv, hvn]

theorem resolvedTo_append (n : Int) (l₁ l₂ : List Comment) :
    resolvedTo n (l₁ ++ l₂) = resolvedTo n l₁ ++ resolvedTo n l₂ :=
  List.filter_append _ _

/-- A comment that resolves to `None` is transparent to the comprehension:
removing it from the corpus changes nothing, errors included. -/
theorem selectItemComments_skip (n : Int) (c0 : Comment)
    (h0 : get_comment_item_number c0 = .ok none) (l₁ l₂ : List Comment) :
    selectItemComments n (l₁ ++ c0 :: l₂) = selectItemComments n (l₁ ++ l₂) := by
  induction l₁ with
  | nil =>
    simp only [List.nil_append]
    show (get_comment_item_number c0).bind _ = _
    rw [h0]
    show (selectItemComments n l₂).bind _ = _
    rcases hs : selectItemComments n l₂ with e | others <;> rfl
  | cons d rest ih =>
    show (get_comment_item_number d).bind _ = (get_comment_item_number d).bind _
    rcases hd : get_comment_item_number d with e | v
    · rfl
    · show (selectItemComments n (rest ++ c0 :: l₂)).bind _ =
        (selectItemComments n (rest ++ l₂)).bind _
      rw [ih]

/-- Evaluation of `ball_in_my_court` once the comprehension's value is
known. -/
theorem ball_in_my_court_eq (item : Item) (cs : List Comment) (github_user : String)
    (R : List Comment) (hsel : selectItemComments item.number cs = .ok R) :
    ball_in_my_court item cs github_user =
      (if R.isEmpty then .ok (!(item.user.login = github_user))
       else
         match (sortStable commentLe R).getLast? with
         | none => .ok false
         | some last =>
           .ok (lastCommenterLogin last != "" &&
                lastCommenterLogin last != github_user)) := by
  have hbind : ball_in_my_court item cs github_user =
      (if R.isEmpty then (pure (!(item.user.login = github_user)) : Except String Bool)
       else
         match (sortStable commentLe R).getLast? with
         | none => pure false
         | some last =>
           pure (lastCommenterLogin last != "" &&
                 lastCommenterLogin last != github_user)) := by
    unfold ball_in_my_court
    dsimp only
    rw [hsel]
    rfl
  rw [hbind]
  by_cases hR : R.isEmpty
  · rw [if_pos hR, if_pos hR]
    rfl
  · rw [if_neg hR, if_neg hR]
    rcases (sortStable commentLe R).getLast? with _ | last <;> rfl

/-! ## Claim C3: items with zero associated comments -/

/-- C3: for every item such that no comment in the supplied corpus resolves
to the item's number (and evaluating the corpus raises no error),
`ball_in_my_court` returns true iff the item's author login differs from the
acting user's login. -/
theorem ball_in_my_court_no_comments (item : Item) (comments : List Comment)
    (github_user : String)
    (hok : ∀ c ∈ comments, resolvesOkB c = true)
    (hnone : ∀ c ∈ comments, get_comment_item_number c ≠ .ok (some item.number)) :
    ball_in_my_court item comments github_user =
      .ok (!(item.user.login = github_user)) := by
  have hsel : selectItemComments item.number comments = .ok [] := by
    rw [selectItemComments_eq item.number comments hok]
    congr 1
    exact List.filter_eq_nil_iff.mpr
      (fun c hc => by simpa using hnone c hc)
  unfold ball_in_my_court
  dsimp only
  rw [hsel]
  rfl

/-- Witness for C3: a concrete corpus containing one comment on a different
item and one unattributable comment; the item's author differs from the
acting user, so the result is `true`. -/
theorem ball_in_my_court_no_comments_witness :
    (∀ c ∈ [Comment.mk (some "https://api.github.com/repos/o/r/issues/2") none
              (some ⟨some "alice"⟩) none (some "2024-01-01T00:00:00Z"),
            Comment.mk none none (some ⟨some "bob"⟩) (some "2024-01-02T00:00:00Z") none],
        resolvesOkB c = true) ∧
    (∀ c ∈ [Comment.mk (some "https://api.github.com/repos/o/r/issues/2") none
              (some ⟨some "alice"⟩) none (some "2024-01-01T00:00:00Z"),
            Comment.mk none none (some ⟨some "bob"⟩) (some "2024-01-02T00:00:00Z") none],
        get_comment_item_number c ≠ .ok (some (1 : Int))) ∧
    ball_in_my_court ⟨1, ⟨"alice"⟩, false⟩
      [Comment.mk (some "https://api.github.com/repos/o/r/issues/2") none
         (some ⟨some "alice"⟩) none (some "2024-01-01T00:00:00Z"),
       Comment.mk none none (some ⟨some "bob"⟩) (some "2024-01-02T00:00:00Z") none]
      "matsen" = .ok true :=
  ⟨by decide, by decide,
   ball_in_my_court_no_comments ⟨1, ⟨"alice"⟩, false⟩ _ "matsen" (by decide) (by decide)⟩

/-! ## Claim C1: items with a non-empty comment subset -/

/-- C1 counterexample: two comments on item 1 share the timestamp
`2024-01-01T00:00:00Z` but have different authors (`alice` and the acting
user `matsen`).  The stable sort leaves tied comments in supplied order, so
the two supply orders of the same comment set give different results: the
outcome is not determined by the comment set alone, contradicting the
claim's "regardless of the order in which the comments are supplied". -/
theorem ball_in_my_court_order_dependent :
    ball_in_my_court ⟨1, ⟨"other"⟩, false⟩
      [Comment.mk (some "https://api.github.com/repos/o/r/issues/1") none
         (some ⟨some "alice"⟩) none (some "2024-01-01T00:00:00Z"),
       Comment.mk (some "https://api.github.com/repos/o/r/issues/1") none
         (some ⟨some "matsen"⟩) none (some "2024-01-01T00:00:00Z")]
      "matsen" = .ok false ∧
    ball_in_my_court ⟨1, ⟨"other"⟩, false⟩
      [Comment.mk (some "https://api.github.com/repos/o/r/issues/1") none
         (some ⟨some "matsen"⟩) none (some "2024-01-01T00:00:00Z"),
       Comment.mk (some "https://api.github.com/repos/o/r/issues/1") none
         (some ⟨some "alice"⟩) none (some "2024-01-01T00:00:00Z")]
      "matsen" = .ok true := by
  constructor <;> decide

/-- C1 (amended): when the comments resolved to the item carry pairwise
distinct sort keys (last-modification timestamp, falling back to creation
timestamp), `ball_in_my_court` returns, for every order in which the caller
supplies the corpus, true iff the author of the chronologically-last comment
is non-empty and differs from the acting user.  (With tied keys the stable
sort makes the supplied order decide, see the counterexample.) -/
theorem ball_in_my_court_last_comment (item : Item) (cs cs' : List Comment)
    (github_user : String)
    (hperm : cs.Perm cs')
    (hok : ∀ c ∈ cs, resolvesOkB c = true)
    (hdist : (resolvedTo item.number cs).Pairwise
      (fun a b => commentSortKey a ≠ commentSortKey b))
    (hne : resolvedTo item.number cs ≠ []) :
    ∃ last,
      (sortStable commentLe (resolvedTo item.number cs)).getLast? = some last ∧
      ball_in_my_court item cs' github_user =
        .ok (lastCommenterLogin last != "" &&
             lastCommenterLogin last != github_user) := by
  have hok' : ∀ c ∈ cs', resolvesOkB c = true :=
    fun c hc => hok c (hperm.mem_iff.mpr hc)
  have hsel' := selectItemComments_eq item.number cs' hok'
  have hfperm : (resolvedTo item.number cs').Perm (resolvedTo item.number cs) :=
    (hperm.symm).filter _
  have hsorted' := sortStable_sorted commentLe (keyLe_total commentSortKey)
    (fun h₁ h₂ => keyLe_trans commentSortKey h₁ h₂) (resolvedTo item.number cs')
  have hsorted := sortStable_sorted commentLe (keyLe_total commentSortKey)
    (fun h₁ h₂ => keyLe_trans commentSortKey h₁ h₂) (resolvedTo item.number cs)
  have hsp : (sortStable commentLe (resolvedTo item.number cs')).Perm
      (resolvedTo item.number cs) :=
    (sortStable_perm _ _).trans hfperm
  have hdist₁ : (sortStable commentLe (resolvedTo item.number cs')).Pairwise
      (fun a b => commentSortKey a ≠ commentSortKey b) :=
    ((hsp).pairwise_iff (fun h => fun e => h e.symm)).mpr hdist
  have heq : sortStable commentLe (resolvedTo item.number cs') =
      sortStable commentLe (resolvedTo item.number cs) :=
    sorted_perm_eq_of_distinct_keys commentSortKey
      (hsp.trans (sortStable_perm _ _).symm) hdist₁ hsorted' hsorted
  have hne₂ : sortStable commentLe (resolvedTo item.number cs) ≠ [] := by
    intro hcon
    have h2 := sortStable_perm commentLe (resolvedTo item.number cs)
    rw [hcon] at h2
    exact hne h2.symm.eq_nil
  rcases hlast : (sortStable commentLe (resolvedTo item.number cs)).getLast?
    with _ | last
  · exact absurd (List.getLast?_eq_none_iff.mp hlast) hne₂
  refine ⟨last, rfl, ?_⟩
  have hRne : resolvedTo item.number cs' ≠ [] := by
    intro hcon
    have h2 := hfperm
    rw [hcon] at h2
    exact hne h2.symm.eq_nil
  have hRempty : (resolvedTo item.number cs').isEmpty = false := by
    rcases hr : resolvedTo item.number cs' with _ | ⟨c, t⟩
    · exact absurd hr hRne
    · rfl
  rw [ball_in_my_court_eq item cs' github_user _ hsel', hRempty]
  simp only [Bool.false_eq_true, if_false]
  rw [heq, hlast]

/-- Witness for the amended C1: two comments on item 1 with distinct
timestamps, supplied in the two possible orders; the chronologically-last
author is `alice`, who differs from acting user `matsen`, so the result is
true for both orders. -/
theorem ball_in_my_court_last_comment_witness :
    ([Comment.mk (some "https://api.github.com/repos/o/r/issues/1") none
        (some ⟨some "matsen"⟩) none (some "2024-01-01T00:00:00Z"),
      Comment.mk (some "https://api.github.com/repos/o/r/issues/1") none
        (some ⟨some "alice"⟩) none (some "2024-01-02T00:00:00Z")].Perm
     [Comment.mk (some "https://api.github.com/repos/o/r/issues/1") none
        (some ⟨some "alice"⟩) none (some "2024-01-02T00:00:00Z"),
      Comment.mk (some "https://api.github.com/repos/o/r/issues/1") none
        (some ⟨some "matsen"⟩) none (some "2024-01-01T00:00:00Z")]) ∧
    (∀ c ∈ [Comment.mk (some "https://api.github.com/repos/o/r/issues/1") none
              (some ⟨some "matsen"⟩) none (some "2024-01-01T00:00:00Z"),
            Comment.mk (some "https://api.github.com/repos/o/r/issues/1") none
              (some ⟨some "alice"⟩) none (some "2024-01-02T00:00:00Z")],
        resolvesOkB c = true) ∧
    (∃ last,
      (sortStable commentLe (resolvedTo (1 : Int)
        [Comment.mk (some "https://api.github.com/repos/o/r/issues/1") none
           (some ⟨some "matsen"⟩) none (some "2024-01-01T00:00:00Z"),
         Comment.mk (some "https://api.github.com/repos/o/r/issues/1") none
           (some ⟨some "alice"⟩) none (some "2024-01-02T00:00:00Z")])).getLast? =
        some last ∧
      ball_in_my_court ⟨1, ⟨"other"⟩, false⟩
        [Comment.mk (some "https://api.github.com/repos/o/r/issues/1") none
           (some ⟨some "alice"⟩) none (some "2024-01-02T00:00:00Z"),
         Comment.mk (some "https://api.github.com/repos/o/r/issues/1") none
           (some ⟨some "matsen"⟩) none (some "2024-01-01T00:00:00Z")]
        "matsen" =
        .ok (lastCommenterLogin last != "" && lastCommenterLogin last != "matsen")) :=
  ⟨by decide, by decide,
   ball_in_my_court_last_comment ⟨1, ⟨"other"⟩, false⟩ _ _ "matsen"
     (by decide) (by decide) (by decide) (by decide)⟩

/-! ## Characterization of the fetch_all_activity loop (claims C2, C5) -/

/-- The snapshot stored for one repository, following the amended claim: an
entry is present exactly when post-filtering issues or PRs remain (the
comments alone do not trigger an entry). -/
def expectedSnapshot (fetch : String → RepoData) (github_user : Option String)
    (repo : String) : Except String (Option Snapshot) := do
  let (ni, np, ac) ← processRepo (fetch repo) github_user
  pure (if ni.isEmpty && np.isEmpty then none else some ⟨ni, np, ac⟩)

/-- The rollup totals, following the amended claim: a repository contributes
its issue, PR and comment counts unless all three are empty. -/
def expectedCounts (fetch : String → RepoData) (github_user : Option String) :
    List String → Except String Counts
  | [] => .ok ⟨0, 0, 0⟩
  | repo :: rest => do
    let (ni, np, ac) ← processRepo (fetch repo) github_user
    let c ← expectedCounts fetch github_user rest
    pure (if ni.isEmpty && np.isEmpty && ac.isEmpty then c
          else ⟨c.issues + ni.length, c.prs + np.length, c.comments + ac.length⟩)

theorem mem_assocSet (l : List (String × Snapshot)) (k k' : String)
    (v v' : Snapshot) :
    (k, v) ∈ assocSet l k' v' ↔
      ((k = k' ∧ v = v') ∨ (k ≠ k' ∧ (k, v) ∈ l)) := by
  unfold assocSet
  by_cases hany : l.any (fun p => p.1 = k') = true
  · rw [if_pos hany]
    rw [List.mem_map]
    constructor
    · rintro ⟨p, hp, hfp⟩
      by_cases hpk : p.1 = k'
      · rw [if_pos hpk] at hfp
        left
        injection hfp with e1 e2
        exact ⟨e1.symm, e2.symm⟩
      · rw [if_neg hpk] at hfp
        right
        subst hfp
        exact ⟨hpk, hp⟩
    · rintro (⟨rfl, rfl⟩ | ⟨hkk, hkv⟩)
      · rcases List.any_eq_true.mp hany with ⟨p, hp, hpk⟩
        exact ⟨p, hp, by rw [if_pos (of_decide_eq_true hpk)]⟩
      · exact ⟨(k, v), hkv, by rw [if_neg hkk]⟩
  · rw [if_neg hany]
    rw [List.mem_append]
    constructor
    · rintro (hin | hin)
      · right
        refine ⟨?_, hin⟩
        intro hkk
        subst hkk
        exact hany (List.any_eq_true.mpr ⟨(k, v), hin, by simp⟩)
      · left
        simp only [List.mem_singleton] at hin
        injection hin with e1 e2
        exact ⟨e1, e2⟩
    · rintro (⟨rfl, rfl⟩ | ⟨_, hkv⟩)
      · right; simp
      · left; exact hkv

/-- An association-list entry is present exactly when the amended claim says
so. -/
def goodEntry (fetch : String → RepoData) (github_user : Option String)
    (r : String) (s : Snapshot) : Prop :=
  expectedSnapshot fetch github_user r = .ok (some s)

theorem goodEntry_unique {fetch : String → RepoData} {github_user : Option String}
    {r : String} {s s' : Snapshot} (h : goodEntry fetch github_user r s)
    (h' : goodEntry fetch github_user r s') : s = s' := by
  unfold goodEntry at h h'
  rw [h] at h'
  exact Option.some.injEq _ _ ▸ (Except.ok.injEq _ _ ▸ h')

theorem fetchAllAux_mem (fetch : String → RepoData) (github_user : Option String) :
    ∀ (rest : List String) (act : List (String × Snapshot)) (cnt : Counts)
      (act' : List (String × Snapshot)) (cnt' : Counts),
      fetchAllAux fetch github_user rest act cnt = .ok (act', cnt') →
      (∀ p ∈ act, goodEntry fetch github_user p.1 p.2) →
      ∀ r s, ((r, s) ∈ act' ↔
        ((r, s) ∈ act ∨ (r ∈ rest ∧ goodEntry fetch github_user r s))) := by
  intro rest
  induction rest with
  | nil =>
    intro act cnt act' cnt' h _ r s
    have h' : Except.ok (ε := String) (act, cnt) = .ok (act', cnt') := h
    injection h' with hpair
    cases hpair
    simp
  | cons repo rest ih =>
    intro act cnt act' cnt' h hinv r s
    unfold fetchAllAux at h
    rcases hp : processRepo (fetch repo) github_user with e | ⟨ni, np, ac⟩ <;>
      rw [hp] at h
    · cases h
    · have h2 : fetchAllAux fetch github_user rest
          (if (ni.isEmpty && np.isEmpty) = true then act
           else assocSet act repo ⟨ni, np, ac⟩)
          (if (ni.isEmpty && np.isEmpty && ac.isEmpty) = true then cnt
           else ⟨cnt.issues + ni.length, cnt.prs + np.length,
                 cnt.comments + ac.length⟩) = .ok (act', cnt') := h
      have hsnap : expectedSnapshot fetch github_user repo =
          .ok (if (ni.isEmpty && np.isEmpty) = true then none
               else some ⟨ni, np, ac⟩) := by
        unfold expectedSnapshot
        rw [hp]
        rfl
      have hgood : ¬(ni.isEmpty && np.isEmpty) = true →
          goodEntry fetch github_user repo ⟨ni, np, ac⟩ := by
        intro hne
        unfold goodEntry
        rw [hsnap, if_neg hne]
      have hnogood : (ni.isEmpty && np.isEmpty) = true →
          ∀ s', ¬goodEntry fetch github_user repo s' := by
        intro he s' hgd
        unfold goodEntry at hgd
        rw [hsnap, if_pos he] at hgd
        injection hgd with hnone
        cases hnone
      by_cases he : (ni.isEmpty && np.isEmpty) = true
      · rw [if_pos he] at h2
        have key := ih _ _ _ _ h2 hinv r s
        rw [key]
        constructor
        · rintro (hin | ⟨hr, hg⟩)
          · exact Or.inl hin
          · exact Or.inr ⟨List.mem_cons_of_mem _ hr, hg⟩
        · rintro (hin | ⟨hr, hg⟩)
          · exact Or.inl hin
          · rcases List.mem_cons.mp hr with rfl | hr'
            · exact absurd hg (hnogood he s)
            · exact Or.inr ⟨hr', hg⟩
      · rw [if_neg he] at h2
        have hinv' : ∀ p ∈ assocSet act repo ⟨ni, np, ac⟩,
            goodEntry fetch github_user p.1 p.2 := by
          rintro ⟨pk, pv⟩ hpmem
          rcases (mem_assocSet act pk repo pv ⟨ni, np, ac⟩).mp hpmem with
            ⟨rfl, rfl⟩ | ⟨_, hold⟩
          · exact hgood he
          · exact hinv _ hold
        have key := ih _ _ _ _ h2 hinv' r s
        rw [key]
        rw [mem_assocSet]
        constructor
        · rintro ((⟨rfl, rfl⟩ | ⟨hrk, hin⟩) | ⟨hr, hg⟩)
          · exact Or.inr ⟨by simp, hgood he⟩
          · exact Or.inl hin
          · exact Or.inr ⟨List.mem_cons_of_mem _ hr, hg⟩
        · rintro (hin | ⟨hr, hg⟩)
          · by_cases hrk : r = repo
            · subst hrk
              exact Or.inl (Or.inl ⟨rfl, goodEntry_unique (hinv _ hin) (hgood he)⟩)
            · exact Or.inl (Or.inr ⟨hrk, hin⟩)
          · rcases List.mem_cons.mp hr with hre | hr'
            · subst hre
              exact Or.inl (Or.inl ⟨rfl, goodEntry_unique hg (hgood he)⟩)
            · exact Or.inr ⟨hr', hg⟩

theorem fetchAllAux_counts (fetch : String → RepoData) (github_user : Option String) :
    ∀ (rest : List String) (act : List (String × Snapshot)) (cnt : Counts)
      (act' : List (String × Snapshot)) (cnt' : Counts),
      fetchAllAux fetch github_user rest act cnt = .ok (act', cnt') →
      ∃ d, expectedCounts fetch github_user rest = .ok d ∧
        cnt' = ⟨cnt.issues + d.issues, cnt.prs + d.prs, cnt.comments + d.comments⟩ := by
  intro rest
  induction rest with
  | nil =>
    intro act cnt act' cnt' h
    have h' : Except.ok (ε := String) (act, cnt) = .ok (act', cnt') := h
    injection h' with hpair
    cases hpair
    refine ⟨⟨0, 0, 0⟩, rfl, ?_⟩
    cases cnt
    simp
  | cons repo rest ih =>
    intro act cnt act' cnt' h
    unfold fetchAllAux at h
    rcases hp : processRepo (fetch repo) github_user with e | ⟨ni, np, ac⟩ <;>
      rw [hp] at h
    · cases h
    · have h2 : fetchAllAux fetch github_user rest
          (if (ni.isEmpty && np.isEmpty) = true then act
           else assocSet act repo ⟨ni, np, ac⟩)
          (if (ni.isEmpty && np.isEmpty && ac.isEmpty) = true then cnt
           else ⟨cnt.issues + ni.length, cnt.prs + np.length,
                 cnt.comments + ac.length⟩) = .ok (act', cnt') := h
      rcases ih _ _ _ _ h2 with ⟨d, hd, hc⟩
      have hexp : expectedCounts fetch github_user (repo :: rest) =
          .ok (if (ni.isEmpty && np.isEmpty && ac.isEmpty) = true then d
               else ⟨d.issues + ni.length, d.prs + np.length,
                     d.comments + ac.length⟩) := by
        conv_lhs => unfold expectedCounts
        rw [hp, hd]
        rfl
      by_cases he : (ni.isEmpty && np.isEmpty && ac.isEmpty) = true
      · rw [if_pos he] at hexp
        rw [if_pos he] at hc
        exact ⟨d, hexp, hc⟩
      · rw [if_neg he] at hexp
        rw [if_neg he] at hc
        refine ⟨⟨d.issues + ni.length, d.prs + np.length, d.comments + ac.length⟩,
          hexp, ?_⟩
        rw [hc]
        simp only [Counts.mk.injEq]
        omega

/-! ## Claim C2: the snapshot-emission condition of fetch_all_activity -/

/-- C2 counterexample: in unfiltered mode, a repository with no items but
one comment.  The snapshot is omitted (line 216 tests only issues and PRs)
even though the post-filtering comments are non-empty, yet the running
comment total is still incremented (line 223 tests all three).  The claim's
"omitted exactly when issues, PRs, and comments are all empty" is false
here, as is "otherwise the snapshot is accumulated ... and the totals
incremented". -/
theorem fetch_all_activity_comment_only_repo :
    processRepo
      ⟨[], [Comment.mk (some "https://api.github.com/repos/o/r/issues/5") none
              (some ⟨some "carol"⟩) none (some "2024-01-05T00:00:00Z")], []⟩
      none =
      .ok ([], [], [Comment.mk (some "https://api.github.com/repos/o/r/issues/5")
        none (some ⟨some "carol"⟩) none (some "2024-01-05T00:00:00Z")]) ∧
    fetch_all_activity ["r"]
      (fun _ => ⟨[], [Comment.mk (some "https://api.github.com/repos/o/r/issues/5")
        none (some ⟨some "carol"⟩) none (some "2024-01-05T00:00:00Z")], []⟩)
      none = .ok ([], ⟨0, 0, 1⟩) := by
  constructor <;> decide

/-- C2 (amended): a repository's snapshot is present in the returned mapping
iff its post-filtering issues or PRs are non-empty (comments alone do not
produce an entry), and the totals accumulate a repository's issue, PR and
comment counts unless issues, PRs and comments are all empty — so a
comment-only repository counts toward the totals without appearing in the
mapping. -/
theorem fetch_all_activity_characterization (repos : List String)
    (fetch : String → RepoData) (github_user : Option String)
    (act : List (String × Snapshot)) (cnt : Counts)
    (h : fetch_all_activity repos fetch github_user = .ok (act, cnt)) :
    (∀ r s, (r, s) ∈ act ↔
      (r ∈ repos ∧ expectedSnapshot fetch github_user r = .ok (some s))) ∧
    expectedCounts fetch github_user repos = .ok cnt := by
  constructor
  · intro r s
    have key := fetchAllAux_mem fetch github_user repos [] ⟨0, 0, 0⟩ act cnt h
      (by simp) r s
    rw [key]
    unfold goodEntry
    simp
  · rcases fetchAllAux_counts fetch github_user repos [] ⟨0, 0, 0⟩ act cnt h
      with ⟨d, hd, hc⟩
    rw [hd, hc]
    cases d
    simp

/-- Witness for the amended C2: one repository with one issue and no
comments; the snapshot is present and the totals count the issue. -/
theorem fetch_all_activity_characterization_witness :
    fetch_all_activity ["r"] (fun _ => ⟨[⟨1, ⟨"alice"⟩, false⟩], [], []⟩) none =
      .ok ([("r", ⟨[⟨1, ⟨"alice"⟩, false⟩], [], []⟩)], ⟨1, 0, 0⟩) ∧
    (∀ r s, (r, s) ∈ [("r", (⟨[⟨1, ⟨"alice"⟩, false⟩], [], []⟩ : Snapshot))] ↔
      (r ∈ ["r"] ∧ expectedSnapshot (fun _ => ⟨[⟨1, ⟨"alice"⟩, false⟩], [], []⟩) none r =
        .ok (some s))) ∧
    expectedCounts (fun _ => ⟨[⟨1, ⟨"alice"⟩, false⟩], [], []⟩) none ["r"] =
      .ok ⟨1, 0, 0⟩ :=
  ⟨by decide,
   (fetch_all_activity_characterization ["r"]
     (fun _ => ⟨[⟨1, ⟨"alice"⟩, false⟩], [], []⟩) none
     [("r", ⟨[⟨1, ⟨"alice"⟩, false⟩], [], []⟩)] ⟨1, 0, 0⟩ (by decide)).1,
   (fetch_all_activity_characterization ["r"]
     (fun _ => ⟨[⟨1, ⟨"alice"⟩, false⟩], [], []⟩) none
     [("r", ⟨[⟨1, ⟨"alice"⟩, false⟩], [], []⟩)] ⟨1, 0, 0⟩ (by decide)).2⟩

/-! ## Claim C5: comments in a snapshot belong to items of the snapshot -/

theorem mem_selectCommentsByNumbers (nums : List Int) :
    ∀ (cs l : List Comment), selectCommentsByNumbers nums cs = .ok l →
      ∀ c ∈ l, ∃ k, get_comment_item_number c = .ok (some k) ∧ k ∈ nums := by
  intro cs
  induction cs with
  | nil =>
    intro l h c hc
    have h' : Except.ok (ε := String) ([] : List Comment) = .ok l := h
    injection h' with hl
    subst hl
    cases hc
  | cons d rest ih =>
    intro l h c hc
    unfold selectCommentsByNumbers at h
    rcases hd : get_comment_item_number d with e | v <;> rw [hd] at h
    · cases h
    · rcases hr : selectCommentsByNumbers nums rest with e | others <;>
        rw [hr] at h
      · cases h
      · have h' : Except.ok (ε := String)
            (if (match v with | some k => nums.contains k | none => false) then
               d :: others else others) = .ok l := h
        injection h' with hl
        subst hl
        rcases v with _ | k
        · rw [if_neg (by simp)] at hc
          exact ih others hr c hc
        · by_cases hk : nums.contains k = true
          · rw [if_pos hk] at hc
            rcases List.mem_cons.mp hc with rfl | hc'
            · exact ⟨k, hd, List.elem_iff.mp hk⟩
            · exact ih others hr c hc'
          · rw [if_neg hk] at hc
            exact ih others hr c hc

/-- C5 counterexample: in unfiltered mode (no acting user) no comment
filtering happens, so a repository with one issue and a comment on a
different item yields a snapshot containing a comment that belongs to no
item of the snapshot. -/
theorem snapshot_with_foreign_comment :
    fetch_all_activity ["r"]
      (fun _ => ⟨[⟨1, ⟨"alice"⟩, false⟩],
        [Comment.mk (some "https://api.github.com/repos/o/r/issues/2") none
           (some ⟨some "carol"⟩) none (some "2024-01-05T00:00:00Z")], []⟩)
      none =
      .ok ([("r", ⟨[⟨1, ⟨"alice"⟩, false⟩], [],
        [Comment.mk (some "https://api.github.com/repos/o/r/issues/2") none
           (some ⟨some "carol"⟩) none (some "2024-01-05T00:00:00Z")]⟩)], ⟨1, 0, 1⟩) ∧
    ¬(∃ item ∈ ([⟨1, ⟨"alice"⟩, false⟩] : List Item) ++ [],
        get_comment_item_number
          (Comment.mk (some "https://api.github.com/repos/o/r/issues/2") none
            (some ⟨some "carol"⟩) none (some "2024-01-05T00:00:00Z")) =
          .ok (some item.number)) := by
  constructor <;> decide

/-- In the filtered branch, the snapshot's comments come from
`filter_comments_by_items` applied to the surviving items. -/
theorem processRepo_filtered (data : RepoData) (user : String) (huser : ¬user = "")
    (ni np : List Item) (ac : List Comment)
    (h : processRepo data (some user) = .ok (ni, np, ac)) :
    filter_comments_by_items (data.issue_comments ++ data.pr_comments) (ni ++ np) =
      .ok ac := by
  have h0 : (if user = "" then
        Except.ok (ε := String)
          (data.items.filter (fun i => !i.pull_request),
           data.items.filter (fun i => i.pull_request),
           data.issue_comments ++ data.pr_comments)
      else
        (filter_by_ball_in_court (data.items.filter (fun i => !i.pull_request))
            (data.issue_comments ++ data.pr_comments) user).bind (fun ni' =>
          (filter_by_ball_in_court (data.items.filter (fun i => i.pull_request))
              (data.issue_comments ++ data.pr_comments) user).bind (fun np' =>
            (filter_comments_by_items (data.issue_comments ++ data.pr_comments)
                (ni' ++ np')).bind (fun ac' =>
              Except.ok (ni', np', ac'))))) = Except.ok (ni, np, ac) := h
  rw [if_neg huser] at h0
  rcases h1 : filter_by_ball_in_court (data.items.filter (fun i => !i.pull_request))
      (data.issue_comments ++ data.pr_comments) user with e | ni' <;> rw [h1] at h0
  · cases h0
  rcases h2 : filter_by_ball_in_court (data.items.filter (fun i => i.pull_request))
      (data.issue_comments ++ data.pr_comments) user with e | np' <;> rw [h2] at h0
  · cases h0
  have h0c : (filter_comments_by_items (data.issue_comments ++ data.pr_comments)
      (ni' ++ np')).bind (fun ac' => Except.ok (ε := String) (ni', np', ac')) =
      Except.ok (ni, np, ac) := h0
  rcases h3 : filter_comments_by_items (data.issue_comments ++ data.pr_comments)
      (ni' ++ np') with e | ac' <;> rw [h3] at h0c
  · cases h0c
  have h0d : Except.ok (ε := String) (ni', np', ac') = .ok (ni, np, ac) := h0c
  injection h0d with htrip
  injection htrip with hni hrest
  injection hrest with hnp hac
  subst hni
  subst hnp
  subst hac
  exact h3

/-- C5 (amended): when a (non-empty) acting-user login is supplied, every
comment of every snapshot in the returned mapping resolves to the number of
an issue or PR of that same snapshot. -/
theorem snapshot_comments_belong (repos : List String) (fetch : String → RepoData)
    (github_user : String) (huser : ¬github_user = "")
    (act : List (String × Snapshot)) (cnt : Counts)
    (h : fetch_all_activity repos fetch (some github_user) = .ok (act, cnt))
    (r : String) (s : Snapshot) (hmem : (r, s) ∈ act)
    (c : Comment) (hc : c ∈ s.comments) :
    ∃ item, item ∈ s.issues ++ s.prs ∧
      get_comment_item_number c = .ok (some item.number) := by
  have key := fetchAllAux_mem fetch (some github_user) repos [] ⟨0, 0, 0⟩ act cnt h
    (by simp) r s
  rcases (key.mp hmem) with hfalse | ⟨_, hgood⟩
  · cases hfalse
  unfold goodEntry expectedSnapshot at hgood
  rcases hp : processRepo (fetch r) (some github_user) with e | ⟨ni, np, ac⟩ <;>
    rw [hp] at hgood
  · cases hgood
  have hgood' : Except.ok (ε := String)
      (if (ni.isEmpty && np.isEmpty) = true then none
       else some (⟨ni, np, ac⟩ : Snapshot)) = .ok (some s) := hgood
  by_cases he : (ni.isEmpty && np.isEmpty) = true
  · rw [if_pos he] at hgood'
    injection hgood' with hn
    cases hn
  · rw [if_neg he] at hgood'
    injection hgood' with hs
    injection hs with hs
    subst hs
    have hf := processRepo_filtered (fetch r) github_user huser ni np ac hp
    rcases mem_selectCommentsByNumbers ((ni ++ np).map Item.number)
        ((fetch r).issue_comments ++ (fetch r).pr_comments) ac hf c hc
      with ⟨k, hk, hkmem⟩
    rcases List.mem_map.mp hkmem with ⟨item, hitem, hknum⟩
    exact ⟨item, hitem, by rw [hk, hknum]⟩

/-- Witness for the amended C5: a filtered run whose snapshot keeps one item
and the comment on it; the theorem locates the comment's parent item in the
snapshot. -/
theorem snapshot_comments_belong_witness :
    fetch_all_activity ["r"]
      (fun _ => ⟨[⟨1, ⟨"alice"⟩, false⟩],
        [Comment.mk (some "https://api.github.com/repos/o/r/issues/1") none
           (some ⟨some "alice"⟩) none (some "2024-01-05T00:00:00Z")], []⟩)
      (some "matsen") =
      .ok ([("r", ⟨[⟨1, ⟨"alice"⟩, false⟩], [],
        [Comment.mk (some "https://api.github.com/repos/o/r/issues/1") none
           (some ⟨some "alice"⟩) none (some "2024-01-05T00:00:00Z")]⟩)], ⟨1, 0, 1⟩) ∧
    (∃ item, item ∈ ([⟨1, ⟨"alice"⟩, false⟩] : List Item) ++ [] ∧
      get_comment_item_number
        (Comment.mk (some "https://api.github.com/repos/o/r/issues/1") none
          (some ⟨some "alice"⟩) none (some "2024-01-05T00:00:00Z")) =
        .ok (some item.number)) :=
  ⟨by decide,
   snapshot_comments_belong ["r"]
     (fun _ => ⟨[⟨1, ⟨"alice"⟩, false⟩],
       [Comment.mk (some "https://api.github.com/repos/o/r/issues/1") none
          (some ⟨some "alice"⟩) none (some "2024-01-05T00:00:00Z")], []⟩)
     "matsen" (by decide)
     [("r", ⟨[⟨1, ⟨"alice"⟩, false⟩], [],
       [Comment.mk (some "https://api.github.com/repos/o/r/issues/1") none
          (some ⟨some "alice"⟩) none (some "2024-01-05T00:00:00Z")]⟩)]
     ⟨1, 0, 1⟩ (by decide)
     "r" ⟨[⟨1, ⟨"alice"⟩, false⟩], [],
       [Comment.mk (some "https://api.github.com/repos/o/r/issues/1") none
          (some ⟨some "alice"⟩) none (some "2024-01-05T00:00:00Z")]⟩
     (by decide)
     (Comment.mk (some "https://api.github.com/repos/o/r/issues/1") none
        (some ⟨some "alice"⟩) none (some "2024-01-05T00:00:00Z"))
     (by decide)⟩

/-! ## Claim C4: comments with no resolvable parent item -/

/-- C4: a comment with neither `issue_url` nor `pull_request_url` resolves
to the `None` sentinel without raising, and `ball_in_my_court` computes the
same value (errors included) with the comment as without it, wherever it
occurs in the corpus. -/
theorem unresolvable_comment_excluded (c0 : Comment)
    (h1 : c0.issue_url = none) (h2 : c0.pull_request_url = none) :
    get_comment_item_number c0 = .ok none ∧
    ∀ (item : Item) (l₁ l₂ : List Comment) (github_user : String),
      ball_in_my_court item (l₁ ++ c0 :: l₂) github_user =
        ball_in_my_court item (l₁ ++ l₂) github_user := by
  have h0 : get_comment_item_number c0 = .ok none := by
    unfold get_comment_item_number
    rw [h1, h2]
  refine ⟨h0, ?_⟩
  intro item l₁ l₂ github_user
  unfold ball_in_my_court
  dsimp only
  rw [selectItemComments_skip item.number c0 h0 l₁ l₂]

/-- Witness for C4: a concrete unattributable comment sitting between two
attributable ones neither raises nor changes the result. -/
theorem unresolvable_comment_excluded_witness :
    get_comment_item_number (Comment.mk none none (some ⟨some "bob"⟩) none none) =
      .ok none ∧
    ball_in_my_court ⟨7, ⟨"alice"⟩, false⟩
      ([Comment.mk (some "https://api.github.com/repos/o/r/issues/7") none
          (some ⟨some "carol"⟩) none (some "2024-01-03T00:00:00Z")] ++
        Comment.mk none none (some ⟨some "bob"⟩) none none ::
          [Comment.mk none (some "https://api.github.com/repos/o/r/pulls/7")
             (some ⟨some "dan"⟩) none (some "2024-01-04T00:00:00Z")])
      "alice" =
    ball_in_my_court ⟨7, ⟨"alice"⟩, false⟩
      ([Comment.mk (some "https://api.github.com/repos/o/r/issues/7") none
          (some ⟨some "carol"⟩) none (some "2024-01-03T00:00:00Z")] ++
        [Comment.mk none (some "https://api.github.com/repos/o/r/pulls/7")
           (some ⟨some "dan"⟩) none (some "2024-01-04T00:00:00Z")])
      "alice" :=
  ⟨(unresolvable_comment_excluded
      (Comment.mk none none (some ⟨some "bob"⟩) none none) rfl rfl).1,
   (unresolvable_comment_excluded
      (Comment.mk none none (some ⟨some "bob"⟩) none none) rfl rfl).2
     ⟨7, ⟨"alice"⟩, false⟩ _ _ "alice"⟩

/-! ## Claim C10: the three functions do not mutate their arguments -/

theorem ballInMyCourtH_spec (h : Heap) (item : Item) (ca : Nat)
    (github_user : String) :
    heapExtends (ballInMyCourtH h item ca github_user).2 h ∧
    (ballInMyCourtH h item ca github_user).1 =
      ball_in_my_court item (h.commentCells.getD ca []) github_user := by
  rcases hsel : selectItemComments item.number (h.commentCells.getD ca [])
    with e | ics
  · have h1 : ballInMyCourtH h item ca github_user = (.error e, h) := by
      unfold ballInMyCourtH
      dsimp only
      rw [hsel]
    have h2 : ball_in_my_court item (h.commentCells.getD ca []) github_user =
        .error e := by
      unfold ball_in_my_court
      dsimp only
      rw [hsel]
      rfl
    rw [h1, h2]
    exact ⟨heapExtends_refl h, rfl⟩
  · have hred : ballInMyCourtH h item ca github_user =
        (if ics.isEmpty then
          ((.ok (!(item.user.login = github_user)) : Except String Bool),
           (⟨h.commentCells ++ [ics], h.itemCells⟩ : Heap))
        else
          (match (sortStable commentLe ics).getLast? with
           | none => ((.ok false : Except String Bool),
               (⟨(h.commentCells ++ [ics]).set h.commentCells.length
                   (sortStable commentLe ics), h.itemCells⟩ : Heap))
           | some last =>
             ((.ok (lastCommenterLogin last != "" &&
                    lastCommenterLogin last != github_user) : Except String Bool),
              (⟨(h.commentCells ++ [ics]).set h.commentCells.length
                  (sortStable commentLe ics), h.itemCells⟩ : Heap)))) := by
      unfold ballInMyCourtH
      dsimp only
      rw [hsel]
    rw [hred, ball_in_my_court_eq item (h.commentCells.getD ca []) github_user
      ics hsel]
    by_cases hics : ics.isEmpty
    · rw [if_pos hics, if_pos hics]
      exact ⟨⟨take_append_one _ _, List.take_length _⟩, rfl⟩
    · rw [if_neg hics, if_neg hics]
      rcases hl : (sortStable commentLe ics).getLast? with _ | last
      · exact ⟨⟨take_append_set _ _ _, List.take_length _⟩, rfl⟩
      · exact ⟨⟨take_append_set _ _ _, List.take_length _⟩, rfl⟩

theorem filterByBallAuxH_spec (ca : Nat) (github_user : String) :
    ∀ (items : List Item) (h : Heap), ca < h.commentCells.length →
      heapExtends (filterByBallAuxH ca github_user h items).2 h ∧
      (filterByBallAuxH ca github_user h items).1 =
        filter_by_ball_in_court items (h.commentCells.getD ca []) github_user := by
  intro items
  induction items with
  | nil =>
    intro h hca
    exact ⟨heapExtends_refl h, rfl⟩
  | cons item rest ih =>
    intro h hca
    have hball := ballInMyCourtH_spec h item ca github_user
    rcases hb : ballInMyCourtH h item ca github_user with ⟨bv, h1⟩
    rw [hb] at hball
    have hext1 : heapExtends h1 h := hball.1
    have hval : bv = ball_in_my_court item (h.commentCells.getD ca [])
      github_user := hball.2
    rcases bv with e | b
    · have heq1 : filterByBallAuxH ca github_user h (item :: rest) =
          (.error e, h1) := by
        unfold filterByBallAuxH
        rw [hb]
      have heq2 : filter_by_ball_in_court (item :: rest)
          (h.commentCells.getD ca []) github_user = .error e := by
        unfold filter_by_ball_in_court
        rw [← hval]
        rfl
      rw [heq1, heq2]
      exact ⟨hext1, rfl⟩
    · have hca1 : ca < h1.commentCells.length :=
        lt_of_lt_of_le hca (take_eq_length_le hext1.1)
      have hgetD : h1.commentCells.getD ca [] = h.commentCells.getD ca [] :=
        getD_preserved hext1.1 hca []
      have hrest := ih h1 hca1
      rcases hr : filterByBallAuxH ca github_user h1 rest with ⟨rv, h2⟩
      rw [hr] at hrest
      have hext2 : heapExtends h2 h1 := hrest.1
      have hval2 : rv = filter_by_ball_in_court rest
          (h.commentCells.getD ca []) github_user := by
        have := hrest.2
        rw [hgetD] at this
        exact this
      rcases rv with e | others
      · have heq1 : filterByBallAuxH ca github_user h (item :: rest) =
            (.error e, h2) := by
          unfold filterByBallAuxH
          simp only [hb, hr]
        have heq2 : filter_by_ball_in_court (item :: rest)
            (h.commentCells.getD ca []) github_user = .error e := by
          unfold filter_by_ball_in_court
          rw [← hval, ← hval2]
          rfl
        rw [heq1, heq2]
        exact ⟨heapExtends_trans hext1 hext2, rfl⟩
      · have heq1 : filterByBallAuxH ca github_user h (item :: rest) =
            (.ok (if b then item :: others else others), h2) := by
          unfold filterByBallAuxH
          simp only [hb, hr]
        have heq2 : filter_by_ball_in_court (item :: rest)
            (h.commentCells.getD ca []) github_user =
            .ok (if b then item :: others else others) := by
          unfold filter_by_ball_in_court
          rw [← hval, ← hval2]
          rfl
        rw [heq1, heq2]
        exact ⟨heapExtends_trans hext1 hext2, rfl⟩

theorem filterByBallInCourtH_spec (h : Heap) (ia ca : Nat) (github_user : String)
    (hca : ca < h.commentCells.length) :
    heapExtends (filterByBallInCourtH h ia ca github_user).2 h ∧
    (filterByBallInCourtH h ia ca github_user).1.map
      (fun a => (filterByBallInCourtH h ia ca github_user).2.itemCells.getD a []) =
      filter_by_ball_in_court (h.itemCells.getD ia [])
        (h.commentCells.getD ca []) github_user := by
  have haux := filterByBallAuxH_spec ca github_user (h.itemCells.getD ia []) h hca
  rcases hA : filterByBallAuxH ca github_user h (h.itemCells.getD ia [])
    with ⟨rv, h1⟩
  rw [hA] at haux
  have hext1 : heapExtends h1 h := haux.1
  have hval : rv = filter_by_ball_in_court (h.itemCells.getD ia [])
    (h.commentCells.getD ca []) github_user := haux.2
  rcases rv with e | kept
  · have heq1 : filterByBallInCourtH h ia ca github_user = (.error e, h1) := by
      unfold filterByBallInCourtH
      dsimp only
      rw [hA]
    rw [heq1, ← hval]
    exact ⟨hext1, rfl⟩
  · have heq1 : filterByBallInCourtH h ia ca github_user =
        (.ok h1.itemCells.length, ⟨h1.commentCells, h1.itemCells ++ [kept]⟩) := by
      unfold filterByBallInCourtH
      dsimp only
      rw [hA]
    rw [heq1, ← hval]
    constructor
    · constructor
      · exact hext1.1
      · calc (h1.itemCells ++ [kept]).take h.itemCells.length
            = ((h1.itemCells ++ [kept]).take h1.itemCells.length).take
                h.itemCells.length := by
              rw [List.take_take, Nat.min_eq_left (take_eq_length_le hext1.2)]
          _ = h1.itemCells.take h.itemCells.length := by rw [take_append_one]
          _ = h.itemCells := hext1.2
    · show Except.ok ((h1.itemCells ++ [kept]).getD h1.itemCells.length []) =
        Except.ok kept
      rw [getD_append_length]

theorem filterCommentsByItemsH_spec (h : Heap) (ca ia : Nat) :
    heapExtends (filterCommentsByItemsH h ca ia).2 h ∧
    (filterCommentsByItemsH h ca ia).1.map
      (fun a => (filterCommentsByItemsH h ca ia).2.commentCells.getD a []) =
      filter_comments_by_items (h.commentCells.getD ca [])
        (h.itemCells.getD ia []) := by
  rcases hf : filter_comments_by_items (h.commentCells.getD ca [])
      (h.itemCells.getD ia []) with e | kept
  · have heq1 : filterCommentsByItemsH h ca ia = (.error e, h) := by
      unfold filterCommentsByItemsH
      dsimp only
      rw [hf]
    rw [heq1]
    exact ⟨heapExtends_refl h, rfl⟩
  · have heq1 : filterCommentsByItemsH h ca ia =
        (.ok h.commentCells.length, ⟨h.commentCells ++ [kept], h.itemCells⟩) := by
      unfold filterCommentsByItemsH
      dsimp only
      rw [hf]
    rw [heq1]
    refine ⟨⟨take_append_one _ _, List.take_length _⟩, ?_⟩
    show Except.ok ((h.commentCells ++ [kept]).getD h.commentCells.length []) =
      Except.ok kept
    rw [getD_append_length]

/-- C10: `ball_in_my_court`, `filter_by_ball_in_court` and
`filter_comments_by_items`, run on heap references, leave every pre-existing
store cell — in particular the caller's items list and comments list —
unchanged (new cells are only appended), even though `ball_in_my_court`
sorts in place the freshly built sublist; and each returns exactly the value
of the corresponding pure function of the cells' contents. -/
theorem heap_functions_no_mutation (h : Heap) (item : Item) (ca ia : Nat)
    (github_user : String) (hca : ca < h.commentCells.length)
    (_hia : ia < h.itemCells.length) :
    (heapExtends (ballInMyCourtH h item ca github_user).2 h ∧
     (ballInMyCourtH h item ca github_user).1 =
       ball_in_my_court item (h.commentCells.getD ca []) github_user) ∧
    (heapExtends (filterByBallInCourtH h ia ca github_user).2 h ∧
     (filterByBallInCourtH h ia ca github_user).1.map
       (fun a => (filterByBallInCourtH h ia ca github_user).2.itemCells.getD a []) =
       filter_by_ball_in_court (h.itemCells.getD ia [])
         (h.commentCells.getD ca []) github_user) ∧
    (heapExtends (filterCommentsByItemsH h ca ia).2 h ∧
     (filterCommentsByItemsH h ca ia).1.map
       (fun a => (filterCommentsByItemsH h ca ia).2.commentCells.getD a []) =
       filter_comments_by_items (h.commentCells.getD ca [])
         (h.itemCells.getD ia [])) :=
  ⟨ballInMyCourtH_spec h item ca github_user,
   filterByBallInCourtH_spec h ia ca github_user hca,
   filterCommentsByItemsH_spec h ca ia⟩

/-- Witness for C10: a store with one comment list and one item list; the
three calls preserve the caller's cells and return the pure results. -/
theorem heap_functions_no_mutation_witness :
    (0 < (Heap.mk [[Comment.mk (some "https://api.github.com/repos/o/r/issues/1")
        none (some ⟨some "alice"⟩) none (some "2024-01-01T00:00:00Z")]]
        [[⟨1, ⟨"other"⟩, false⟩]]).commentCells.length) ∧
    (0 < (Heap.mk [[Comment.mk (some "https://api.github.com/repos/o/r/issues/1")
        none (some ⟨some "alice"⟩) none (some "2024-01-01T00:00:00Z")]]
        [[⟨1, ⟨"other"⟩, false⟩]]).itemCells.length) ∧
    heapExtends (ballInMyCourtH
      (Heap.mk [[Comment.mk (some "https://api.github.com/repos/o/r/issues/1")
        none (some ⟨some "alice"⟩) none (some "2024-01-01T00:00:00Z")]]
        [[⟨1, ⟨"other"⟩, false⟩]])
      ⟨1, ⟨"other"⟩, false⟩ 0 "matsen").2
      (Heap.mk [[Comment.mk (some "https://api.github.com/repos/o/r/issues/1")
        none (some ⟨some "alice"⟩) none (some "2024-01-01T00:00:00Z")]]
        [[⟨1, ⟨"other"⟩, false⟩]]) ∧
    (filterByBallInCourtH
      (Heap.mk [[Comment.mk (some "https://api.github.com/repos/o/r/issues/1")
        none (some ⟨some "alice"⟩) none (some "2024-01-01T00:00:00Z")]]
        [[⟨1, ⟨"other"⟩, false⟩]]) 0 0 "matsen").1.map
      (fun a => (filterByBallInCourtH
        (Heap.mk [[Comment.mk (some "https://api.github.com/repos/o/r/issues/1")
          none (some ⟨some "alice"⟩) none (some "2024-01-01T00:00:00Z")]]
          [[⟨1, ⟨"other"⟩, false⟩]]) 0 0 "matsen").2.itemCells.getD a []) =
      filter_by_ball_in_court [⟨1, ⟨"other"⟩, false⟩]
        [Comment.mk (some "https://api.github.com/repos/o/r/issues/1")
          none (some ⟨some "alice"⟩) none (some "2024-01-01T00:00:00Z")]
        "matsen" :=
  ⟨by decide, by decide,
   ((heap_functions_no_mutation
      (Heap.mk [[Comment.mk (some "https://api.github.com/repos/o/r/issues/1")
        none (some ⟨some "alice"⟩) none (some "2024-01-01T00:00:00Z")]]
        [[⟨1, ⟨"other"⟩, false⟩]])
      ⟨1, ⟨"other"⟩, false⟩ 0 0 "matsen" (by decide) (by decide)).1).1,
   ((heap_functions_no_mutation
      (Heap.mk [[Comment.mk (some "https://api.github.com/repos/o/r/issues/1")
        none (some ⟨some "alice"⟩) none (some "2024-01-01T00:00:00Z")]]
        [[⟨1, ⟨"other"⟩, false⟩]])
      ⟨1, ⟨"other"⟩, false⟩ 0 0 "matsen" (by decide) (by decide)).2).1.2⟩
